import Mathlib

/-!
Verification of the guardrail evaluation and monitoring subsystem of the
ai-news-workflow repository.

The Python sources embedded here are:
* `src/guardrails/base_guardrail.py` (`BaseGuardrail.log_event`,
  `GuardrailChain.process`),
* `src/guardrails/content_safety_guardrail.py` (`ContentSafetyGuardrail`),
* `src/guardrails/guardrail_monitor.py` (`GuardrailMonitor`).

Python floats are modelled as exact rationals (`ℚ`), Python dicts with
insertion order as association lists, and SQLite tables as lists of rows.
The `re.findall` calls of the pattern layer are modelled by an abstract
match-count environment (`ReEnv`): the theorems hold for every behaviour
of the regular-expression engine.
-/

namespace AINews

/-- A score is a Python float, modelled exactly as a rational number. -/
abbrev Score := ℚ

/-- In-memory metrics counters of `BaseGuardrail.__init__`
(`base_guardrail.py` lines 30-35). -/
structure Metrics where
  invocations : ℕ
  blocks : ℕ
  modifications : ℕ
  passes : ℕ
deriving Repr, DecidableEq

/-- The counters start at zero (`base_guardrail.py` lines 30-35). -/
def initialMetrics : Metrics := ⟨0, 0, 0, 0⟩

/-- Embeds `BaseGuardrail.log_event` (`base_guardrail.py` lines 66-84): raises
`invocations` and, depending on the event type, one outcome counter. -/
def logEvent (m : Metrics) (eventType : String) : Metrics :=
  let m := { m with invocations := m.invocations + 1 }
  if eventType = "block" then { m with blocks := m.blocks + 1 }
  else if eventType = "modify" then { m with modifications := m.modifications + 1 }
  else if eventType = "pass" then { m with passes := m.passes + 1 }
  else m

/-- Configuration of a `ContentSafetyGuardrail`
(`content_safety_guardrail.py` lines 23-49).  `extremeThresholdOpt` models
the optional `config["extreme_threshold"]` entry read by `should_block`. -/
structure CSConfig where
  categories : List String
  threshold : Score
  useExternalApi : Bool
  hasLlmService : Bool
  extremeThresholdOpt : Option Score
deriving Repr, DecidableEq

/-- The regular-expression environment: `env.findall pat text` is the
number of matches `len(re.findall(pat, text, re.IGNORECASE))`. -/
structure ReEnv where
  findall : String → String → ℕ

/-- Look up a key in an insertion-ordered dict, with a default
(`dict.get(k, v)`). -/
def dictGet (d : List (String × Score)) (k : String) (v : Score) : Score :=
  match d.find? (fun p => p.1 = k) with
  | some p => p.2
  | none => v

/-- Set a key in an insertion-ordered dict (`d[k] = v`): overwrite in
place when present, append otherwise. -/
def dictSet (d : List (String × Score)) (k : String) (v : Score) : List (String × Score) :=
  if d.any (fun p => p.1 = k) then
    d.map (fun p => if p.1 = k then (k, v) else p)
  else d ++ [(k, v)]

/-- Embeds `ContentSafetyGuardrail._load_harmful_patterns`
(`content_safety_guardrail.py` lines 54-82): one regex pattern per
category. -/
def harmfulPatterns : List (String × List String) :=
  [ ("hate", ["\\b(hate|hateful|hating)\\b.*\\b(group|race|gender|religion|orientation)\\b"])
  , ("harassment", ["\\b(harass|bully|intimidate|threaten|attack)\\b.*\\b(person|individual|you)\\b"])
  , ("self-harm", ["\\b(suicide|self-harm|hurt (yourself|myself|themselves))\\b"])
  , ("sexual", ["\\b(explicit|graphic)\\b.*\\b(sexual|content)\\b"])
  , ("violence", ["\\b(kill|murder|attack|hurt|harm)\\b.*\\b(people|person|group)\\b"])
  , ("misleading", ["\\b(fake news|propaganda|conspiracy|hoax)\\b"])
  ]

/-- Result of `_analyze_text_content`
(`content_safety_guardrail.py` lines 154-159). -/
structure AnalysisResult where
  categoryScores : List (String × Score)
  flaggedCategories : List String
  needsModification : Bool
  overallSafetyScore : Score
deriving Repr, DecidableEq

/-- The initial analysis record (`content_safety_guardrail.py`
lines 154-159). -/
def initialAnalysis : AnalysisResult :=
  { categoryScores := [], flaggedCategories := [], needsModification := false
  , overallSafetyScore := 1 }

/-- Inner loop of the pattern layer (`content_safety_guardrail.py`
lines 166-172): the category score is the maximum over the category's
patterns of `min(1.0, len(matches) * 0.2)`, starting from `0.0`. -/
def patternCategoryScore (env : ReEnv) (text : String) (patterns : List String) : Score :=
  patterns.foldl
    (fun categoryScore pattern =>
      let n := env.findall pattern text
      if n ≠ 0 then max categoryScore (min 1 (mkRat (n : ℤ) 5)) else categoryScore)
    0

/-- One step of the pattern layer (`content_safety_guardrail.py`
lines 162-177): skip categories not configured, record the score, flag
when it reaches the threshold. -/
def patternStep (env : ReEnv) (cfg : CSConfig) (text : String)
    (result : AnalysisResult) (entry : String × List String) : AnalysisResult :=
  if entry.1 ∈ cfg.categories then
    let categoryScore := patternCategoryScore env text entry.2
    let result := { result with
      categoryScores := dictSet result.categoryScores entry.1 categoryScore }
    if cfg.threshold ≤ categoryScore then
      { result with flaggedCategories := result.flaggedCategories ++ [entry.1]
                  , needsModification := true }
    else result
  else result

/-- The pattern layer (`content_safety_guardrail.py` lines 161-177):
fold `patternStep` over `harmful_patterns`. -/
def patternLayer (env : ReEnv) (cfg : CSConfig) (text : String) : AnalysisResult :=
  harmfulPatterns.foldl (patternStep env cfg text) initialAnalysis

/-- One step of the merge loops of the optional layers
(`content_safety_guardrail.py` lines 183-189 and 195-201): merge the
layer's score via `max`, flag newly-threshold-reaching categories. -/
def mergeStep (cfg : CSConfig) (result : AnalysisResult) (entry : String × Score) :
    AnalysisResult :=
  if entry.1 ∈ cfg.categories then
    let currentScore := dictGet result.categoryScores entry.1 0
    let result := { result with
      categoryScores := dictSet result.categoryScores entry.1 (max currentScore entry.2) }
    if cfg.threshold ≤ entry.2 ∧ entry.1 ∉ result.flaggedCategories then
      { result with flaggedCategories := result.flaggedCategories ++ [entry.1]
                  , needsModification := true }
    else result
  else result

/-- Merge a whole layer's per-category scores into the analysis
(`content_safety_guardrail.py` lines 183-189 and 195-201). -/
def mergeLayer (cfg : CSConfig) (result : AnalysisResult)
    (layerScores : List (String × Score)) : AnalysisResult :=
  layerScores.foldl (mergeStep cfg) result

/-- Embeds `ContentSafetyGuardrail._check_external_api`
(`content_safety_guardrail.py` lines 218-233): mock per-category scores. -/
def checkExternalApi : List (String × Score) :=
  [ ("hate", mkRat 1 10), ("harassment", mkRat 1 20), ("self-harm", mkRat 1 100)
  , ("sexual", mkRat 1 50), ("violence", mkRat 3 100), ("misleading", mkRat 1 5) ]

/-- Embeds `ContentSafetyGuardrail._analyze_with_llm`
(`content_safety_guardrail.py` lines 235-250): mock per-category scores. -/
def analyzeWithLlm : List (String × Score) :=
  [ ("hate", mkRat 1 20), ("harassment", mkRat 3 100), ("self-harm", mkRat 1 100)
  , ("sexual", mkRat 1 50), ("violence", mkRat 1 25), ("misleading", mkRat 3 20) ]

/-- Analysis state after the optional external-API layer
(`content_safety_guardrail.py` lines 179-189): the layer runs only when
`use_external_api` is set and the pattern layer flagged nothing. -/
def afterApiLayer (env : ReEnv) (cfg : CSConfig) (text : String) : AnalysisResult :=
  let result := patternLayer env cfg text
  if cfg.useExternalApi ∧ result.flaggedCategories = [] then
    mergeLayer cfg result checkExternalApi
  else result

/-- Analysis state after the optional LLM layer
(`content_safety_guardrail.py` lines 191-201): the layer runs only when
an LLM service is configured and still nothing is flagged. -/
def afterLlmLayer (env : ReEnv) (cfg : CSConfig) (text : String) : AnalysisResult :=
  let result := afterApiLayer env cfg text
  if cfg.hasLlmService ∧ result.flaggedCategories = [] then
    mergeLayer cfg result analyzeWithLlm
  else result

/-- Maximum of the recorded scores (`max(result["category_scores"].values())`). -/
def maxScore (d : List (String × Score)) : Score :=
  d.foldl (fun acc p => max acc p.2) 0

/-- Embeds `ContentSafetyGuardrail._analyze_text_content`
(`content_safety_guardrail.py` lines 142-208): three layers, then the
overall safety score. -/
def analyzeTextContent (env : ReEnv) (cfg : CSConfig) (text : String) : AnalysisResult :=
  let result := afterLlmLayer env cfg text
  if result.categoryScores ≠ [] then
    { result with overallSafetyScore := 1 - maxScore result.categoryScores }
  else result

/-- Embeds `config.get("extreme_threshold", 0.9)` of
`content_safety_guardrail.py` line 263. -/
def extremeThreshold (cfg : CSConfig) : Score :=
  cfg.extremeThresholdOpt.getD (mkRat 9 10)

/-- Embeds `ContentSafetyGuardrail.should_block`
(`content_safety_guardrail.py` lines 252-272). -/
def shouldBlock (cfg : CSConfig) (analysisResult : AnalysisResult) : Bool :=
  analysisResult.categoryScores.any (fun p => extremeThreshold cfg ≤ p.2) ||
    2 ≤ analysisResult.flaggedCategories.length

/-- Embeds `ContentSafetyGuardrail._modify_content`
(`content_safety_guardrail.py` lines 274-301): prepend a warning banner. -/
def modifyContent (analysisResult : AnalysisResult) (content : String) : String :=
  let warning := ("\n\n[CONTENT WARNING: This content may contain ")
    ++ (", ").intercalate analysisResult.flaggedCategories
    ++ (". Proceed with caution.]\n\n")
  warning ++ content

/-- The result dictionary a guardrail's `process` returns; an absent
`blocked`/`modified`/`passed` key is modelled as `false` and an absent
`reason` key as `none`. -/
structure GuardrailResult where
  blocked : Bool
  modified : Bool
  passed : Bool
  reason : Option String
  analysis : Option AnalysisResult
deriving Repr, DecidableEq

/-- Embeds `ContentSafetyGuardrail.process` for text content
(`content_safety_guardrail.py` lines 84-140).  Returns the updated
in-memory metrics, the processed content and the result dictionary. -/
def csProcess (env : ReEnv) (cfg : CSConfig) (m : Metrics) (content : String) :
    Metrics × String × GuardrailResult :=
  let m := { m with invocations := m.invocations + 1 }
  let analysisResult := analyzeTextContent env cfg content
  if shouldBlock cfg analysisResult then
    let m := { m with blocks := m.blocks + 1 }
    let m := logEvent m ("block")
    (m, content,
      { blocked := true, modified := false, passed := false
      , reason := some (("Content flagged for: ")
          ++ (", ").intercalate analysisResult.flaggedCategories)
      , analysis := some analysisResult })
  else if analysisResult.needsModification then
    let modifiedContent := modifyContent analysisResult content
    let m := { m with modifications := m.modifications + 1 }
    let m := logEvent m ("modify")
    (m, modifiedContent,
      { blocked := false, modified := true, passed := false
      , reason := some (("Content modified for: ")
          ++ (", ").intercalate analysisResult.flaggedCategories)
      , analysis := some analysisResult })
  else
    let m := { m with passes := m.passes + 1 }
    let m := logEvent m ("pass")
    (m, content,
      { blocked := false, modified := false, passed := true
      , reason := none
      , analysis := some analysisResult })

/-- Run a sequence of `process` calls, tracking only the metrics. -/
def csProcessAll (env : ReEnv) (cfg : CSConfig) (m : Metrics)
    (contents : List String) : Metrics :=
  contents.foldl (fun m c => (csProcess env cfg m c).1) m

/-- The default constructor arguments of `ContentSafetyGuardrail.__init__`
(`content_safety_guardrail.py` lines 23-49): default categories,
threshold `0.8`, no external API, no LLM service, empty config. -/
def defaultConfig : CSConfig :=
  { categories := ["hate", "harassment", "self-harm", "sexual", "violence", "misleading"]
  , threshold := mkRat 4 5
  , useExternalApi := false
  , hasLlmService := false
  , extremeThresholdOpt := none }

/-- A regex environment in which no pattern matches anything. -/
def zeroEnv : ReEnv := ⟨fun _ _ => 0⟩

/-- Total number of pattern matches of a category's pattern list in a
text (the claim's `matched_pattern_count`). -/
def matchedPatternCount (env : ReEnv) (text : String) (patterns : List String) : ℕ :=
  (patterns.map (fun pattern => env.findall pattern text)).sum

/-- A guardrail as the chain sees it (`base_guardrail.py` lines 104-111):
a name and a `process` function from content to processed content plus a
result dictionary. -/
structure Guardrail where
  name : String
  process : String → String × GuardrailResult

/-- One entry of the chain's `guardrail_results` list
(`base_guardrail.py` lines 131-134). -/
structure ChainStep where
  guardrail : String
  result : GuardrailResult
deriving Repr, DecidableEq

/-- The chain's aggregate result dictionary (`base_guardrail.py`
lines 126-141); the `blocked`, `blocking_guardrail` and
`blocking_reason` keys are absent (`false`/`none`) unless set. -/
structure ChainResult where
  guardrailResults : List ChainStep
  blocked : Bool
  blockingGuardrail : Option String
  blockingReason : Option String
deriving Repr, DecidableEq

/-- The loop of `GuardrailChain.process` (`base_guardrail.py`
lines 128-146), with the accumulated `guardrail_results` made explicit:
on a blocked result, stop and return the content as it was before the
blocking guardrail ran (`current_content` is only advanced on
non-blocking steps, line 144). -/
def chainProcessAux : List Guardrail → String → List ChainStep → String × ChainResult
  | [], currentContent, acc => (currentContent, ⟨acc, false, none, none⟩)
  | g :: rest, currentContent, acc =>
    let pr := g.process currentContent
    let acc := acc ++ [⟨g.name, pr.2⟩]
    if pr.2.blocked then
      (currentContent, ⟨acc, true, some g.name, some (pr.2.reason.getD ("Unknown reason"))⟩)
    else
      chainProcessAux rest pr.1 acc

/-- Embeds `GuardrailChain.process` (`base_guardrail.py` lines 113-146). -/
def chainProcess (gs : List Guardrail) (content : String) : String × ChainResult :=
  chainProcessAux gs content []

/-- Content after feeding it through a list of guardrails in order. -/
def contentAfter (gs : List Guardrail) (c : String) : String :=
  gs.foldl (fun cc g => (g.process cc).1) c

/-- Whether no guardrail of the list blocks when the list is run as a
chain prefix starting from content `c`. -/
def prefixNoBlock : List Guardrail → String → Bool
  | [], _ => true
  | g :: rest, c => !(g.process c).2.blocked && prefixNoBlock rest (g.process c).1

/-- The `guardrail_results` entries produced by running a list of
guardrails in sequence from content `c` (no block occurring). -/
def chainSteps : List Guardrail → String → List ChainStep
  | [], _ => []
  | g :: rest, c => ⟨g.name, (g.process c).2⟩ :: chainSteps rest (g.process c).1

/-- One row of the `guardrail_metrics` table
(`guardrail_monitor.py` lines 53-65). -/
structure MetricRow where
  date : String
  guardrailName : String
  invocations : ℕ
  blocks : ℕ
  modifications : ℕ
  passes : ℕ
  falsePositives : ℕ
  falseNegatives : ℕ
deriving Repr, DecidableEq

/-- One row of the `guardrail_events` table
(`guardrail_monitor.py` lines 39-51); the fields the claims do not
touch (`content_id`, `workflow_id`, `agent_id`, `details`) are omitted. -/
structure EventRow where
  id : ℕ
  timestamp : String
  guardrailName : String
  eventType : String
  userFeedback : Option String
deriving Repr, DecidableEq

/-- The monitor's SQLite database: the two tables plus the
autoincrement counter of `guardrail_events.id`. -/
structure MonitorDB where
  events : List EventRow
  metrics : List MetricRow
  nextId : ℕ
deriving Repr, DecidableEq

/-- The fresh row inserted by `_update_daily_metrics` when no record
for `(today, guardrail_name)` exists (`guardrail_monitor.py`
lines 157-170): `invocations` is the literal `1` while the outcome
counters depend on the event type. -/
def newMetricRow (today guardrailName eventType : String) : MetricRow :=
  { date := today, guardrailName := guardrailName
  , invocations := 1
  , blocks := if eventType = "block" then 1 else 0
  , modifications := if eventType = "modify" then 1 else 0
  , passes := if eventType = "pass" then 1 else 0
  , falsePositives := 0, falseNegatives := 0 }

/-- The in-place update of `_update_daily_metrics` on an existing row
(`guardrail_monitor.py` lines 139-156): an event type outside
block/modify/pass updates nothing, not even `invocations`. -/
def bumpRow (eventType : String) (r : MetricRow) : MetricRow :=
  if eventType = "block" then
    { r with invocations := r.invocations + 1, blocks := r.blocks + 1 }
  else if eventType = "modify" then
    { r with invocations := r.invocations + 1, modifications := r.modifications + 1 }
  else if eventType = "pass" then
    { r with invocations := r.invocations + 1, passes := r.passes + 1 }
  else r

/-- Embeds `GuardrailMonitor._update_daily_metrics`
(`guardrail_monitor.py` lines 126-173): update the row for
`(today, guardrail_name)` in place when it exists, insert a fresh row
otherwise.  The table holds at most one row per `(date, name)` pair, so
updating all matching rows models the Python update-by-id. -/
def updateDailyMetrics (db : MonitorDB) (today guardrailName eventType : String) :
    MonitorDB :=
  if db.metrics.any (fun r => r.date = today ∧ r.guardrailName = guardrailName) then
    { db with metrics := db.metrics.map (fun r =>
        if r.date = today ∧ r.guardrailName = guardrailName then
          bumpRow eventType r
        else r) }
  else
    { db with metrics := db.metrics ++ [newMetricRow today guardrailName eventType] }

/-- Embeds `GuardrailMonitor.log_event` (`guardrail_monitor.py` lines 70-124):
insert the event row, then update the daily metrics.  `nowIso` is
`datetime.now().isoformat()` and `today` is
`datetime.now().date().isoformat()` of the same instant. -/
def monitorLogEvent (db : MonitorDB) (nowIso today guardrailName eventType : String) :
    MonitorDB × ℕ :=
  let eventId := db.nextId
  let db := { db with
    events := db.events ++ [⟨eventId, nowIso, guardrailName, eventType, none⟩]
  , nextId := db.nextId + 1 }
  (updateDailyMetrics db today guardrailName eventType, eventId)

/-- Embeds `GuardrailMonitor.record_user_feedback`
(`guardrail_monitor.py` lines 175-216).  `dateOf` models
`datetime.fromisoformat(ts).date().isoformat()`. -/
def recordUserFeedback (dateOf : String → String) (db : MonitorDB) (eventId : ℕ)
    (feedback : String) : MonitorDB :=
  let db := { db with events := db.events.map (fun e =>
    if e.id = eventId then { e with userFeedback := some feedback } else e) }
  if feedback = "false_positive" ∨ feedback = "false_negative" then
    match db.events.find? (fun e => e.id = eventId) with
    | none => db
    | some e =>
      let date := dateOf e.timestamp
      if feedback = "false_positive" then
        { db with metrics := db.metrics.map (fun r =>
            if r.date = date ∧ r.guardrailName = e.guardrailName then
              { r with falsePositives := r.falsePositives + 1 }
            else r) }
      else
        { db with metrics := db.metrics.map (fun r =>
            if r.date = date ∧ r.guardrailName = e.guardrailName then
              { r with falseNegatives := r.falseNegatives + 1 }
            else r) }
  else db

/-- Total `false_positives` over the rows for one `(date, name)` pair. -/
def fpTotal (db : MonitorDB) (date g : String) : ℕ :=
  ((db.metrics.filter (fun r => r.date = date ∧ r.guardrailName = g)).map
    (fun r => r.falsePositives)).sum

/-- Total `false_negatives` over the rows for one `(date, name)` pair. -/
def fnTotal (db : MonitorDB) (date g : String) : ℕ :=
  ((db.metrics.filter (fun r => r.date = date ∧ r.guardrailName = g)).map
    (fun r => r.falseNegatives)).sum

/-- The six plain counters of an aggregation bucket of `get_metrics`
(`guardrail_monitor.py` lines 288-295 and 306-313). -/
structure AggCounters where
  invocations : ℕ
  blocks : ℕ
  modifications : ℕ
  passes : ℕ
  falsePositives : ℕ
  falseNegatives : ℕ
deriving Repr, DecidableEq

/-- A `by_guardrail` bucket: counters plus the derived rate keys.  A
rate key that the Python code has not added to the dict is `none`. -/
structure GuardrailAgg where
  counters : AggCounters
  blockRate : Option ℚ
  modificationRate : Option ℚ
  passRate : Option ℚ
  falsePositiveRate : Option ℚ
deriving Repr, DecidableEq

/-- The report of `get_metrics` (`guardrail_monitor.py` lines 258-271):
the global rate keys are always present (initialised to `0.0`); the
`by_date` buckets never receive rate keys. -/
structure MetricsReport where
  totalInvocations : ℕ
  totalBlocks : ℕ
  totalModifications : ℕ
  totalPasses : ℕ
  totalFalsePositives : ℕ
  totalFalseNegatives : ℕ
  blockRate : ℚ
  modificationRate : ℚ
  passRate : ℚ
  falsePositiveRate : ℚ
  byGuardrail : List (String × GuardrailAgg)
  byDate : List (String × AggCounters)
deriving Repr, DecidableEq

/-- The SQL filter of `get_metrics` (`guardrail_monitor.py`
lines 239-252): optional guardrail name, `date >= start`, `date <= end`
(SQLite compares ISO date strings lexicographically, as does `≤` on
`String`). -/
def rowMatches (gn sd ed : Option String) (r : MetricRow) : Bool :=
  (match gn with | some g => r.guardrailName = g | none => true) &&
  (match sd with | some s => decide (s ≤ r.date) | none => true) &&
  (match ed with | some e => decide (r.date ≤ e) | none => true)

/-- Add one row into a counters bucket (`guardrail_monitor.py`
lines 297-302 and 315-320). -/
def addCounters (a : AggCounters) (r : MetricRow) : AggCounters :=
  { invocations := a.invocations + r.invocations
  , blocks := a.blocks + r.blocks
  , modifications := a.modifications + r.modifications
  , passes := a.passes + r.passes
  , falsePositives := a.falsePositives + r.falsePositives
  , falseNegatives := a.falseNegatives + r.falseNegatives }

/-- The zero bucket created when a guardrail or date is first seen
(`guardrail_monitor.py` lines 287-295 and 305-313). -/
def zeroCounters : AggCounters := ⟨0, 0, 0, 0, 0, 0⟩

/-- Fold one row into the `by_guardrail` dict (`guardrail_monitor.py`
lines 286-302): create the bucket on first sight, then add; no rate
keys exist at this stage. -/
def updGuardrail (d : List (String × GuardrailAgg)) (g : String) (r : MetricRow) :
    List (String × GuardrailAgg) :=
  if d.any (fun p => p.1 = g) then
    d.map (fun p =>
      if p.1 = g then (g, { p.2 with counters := addCounters p.2.counters r }) else p)
  else d ++ [(g, ⟨addCounters zeroCounters r, none, none, none, none⟩)]

/-- Fold one row into the `by_date` dict (`guardrail_monitor.py`
lines 304-320). -/
def updDate (d : List (String × AggCounters)) (date : String) (r : MetricRow) :
    List (String × AggCounters) :=
  if d.any (fun p => p.1 = date) then
    d.map (fun p => if p.1 = date then (date, addCounters p.2 r) else p)
  else d ++ [(date, addCounters zeroCounters r)]

/-- Accumulate one row into the report (`guardrail_monitor.py`
lines 273-320). -/
def accRow (rep : MetricsReport) (r : MetricRow) : MetricsReport :=
  { rep with
    totalInvocations := rep.totalInvocations + r.invocations
  , totalBlocks := rep.totalBlocks + r.blocks
  , totalModifications := rep.totalModifications + r.modifications
  , totalPasses := rep.totalPasses + r.passes
  , totalFalsePositives := rep.totalFalsePositives + r.falsePositives
  , totalFalseNegatives := rep.totalFalseNegatives + r.falseNegatives
  , byGuardrail := updGuardrail rep.byGuardrail r.guardrailName r
  , byDate := updDate rep.byDate r.date r }

/-- The report skeleton with all totals `0`, all global rates `0.0` and
empty buckets (`guardrail_monitor.py` lines 258-271). -/
def emptyReport : MetricsReport :=
  ⟨0, 0, 0, 0, 0, 0, 0, 0, 0, 0, [], []⟩

/-- The per-guardrail rate computation (`guardrail_monitor.py`
lines 332-341): rate keys are added only when `invocations > 0`, and
`false_positive_rate` only when additionally
`blocks + modifications > 0`. -/
def computeGuardrailRates (a : GuardrailAgg) : GuardrailAgg :=
  if 0 < a.counters.invocations then
    let a := { a with
      blockRate := some ((a.counters.blocks : ℚ) / (a.counters.invocations : ℚ))
    , modificationRate := some ((a.counters.modifications : ℚ) / (a.counters.invocations : ℚ))
    , passRate := some ((a.counters.passes : ℚ) / (a.counters.invocations : ℚ)) }
    if 0 < a.counters.blocks + a.counters.modifications then
      { a with falsePositiveRate := some ((a.counters.falsePositives : ℚ) /
          ((a.counters.blocks + a.counters.modifications : ℕ) : ℚ)) }
    else a
  else a

/-- The accumulation pass of `get_metrics` (`guardrail_monitor.py`
lines 239-320): filter the metric rows, then fold them into the report
skeleton. -/
def accReport (rows : List MetricRow) (gn sd ed : Option String) : MetricsReport :=
  (rows.filter (rowMatches gn sd ed)).foldl accRow emptyReport

/-- The global rate computation of `get_metrics` (`guardrail_monitor.py`
lines 322-330): rates are overwritten only when `total_invocations > 0`,
and the false-positive rate only when additionally
`total_blocks + total_modifications > 0`; otherwise they stay at their
initial `0.0`. -/
def withGlobalRates (rep : MetricsReport) : MetricsReport :=
  if 0 < rep.totalInvocations then
    let rep := { rep with
      blockRate := (rep.totalBlocks : ℚ) / (rep.totalInvocations : ℚ)
    , modificationRate := (rep.totalModifications : ℚ) / (rep.totalInvocations : ℚ)
    , passRate := (rep.totalPasses : ℚ) / (rep.totalInvocations : ℚ) }
    if 0 < rep.totalBlocks + rep.totalModifications then
      { rep with falsePositiveRate := (rep.totalFalsePositives : ℚ) /
          ((rep.totalBlocks + rep.totalModifications : ℕ) : ℚ) }
    else rep
  else rep

/-- Embeds `GuardrailMonitor.get_metrics` (`guardrail_monitor.py`
lines 218-344): accumulate, compute global rates, then per-guardrail
rates (lines 332-341). -/
def getMetrics (rows : List MetricRow) (gn sd ed : Option String) : MetricsReport :=
  let rep := withGlobalRates (accReport rows gn sd ed)
  { rep with byGuardrail := rep.byGuardrail.map (fun p => (p.1, computeGuardrailRates p.2)) }

/-- The event attached to the C9 witness database. -/
def c9event : EventRow := ⟨1, "2026-01-01", "content_safety", "block", none⟩

/-- A monitor database with one block event and its daily metric row. -/
def c9db : MonitorDB :=
  ⟨[c9event], [⟨"2026-01-01", "content_safety", 1, 1, 0, 0, 0, 0⟩], 2⟩

/-- A daily metric row recording one pass and nothing else. -/
def passOnlyRow : MetricRow := ⟨"2026-01-01", "content_safety", 1, 0, 0, 1, 0, 0⟩

/-- A daily metric row with five invocations: two blocks, three passes. -/
def fiveRow : MetricRow := ⟨"2026-01-01", "content_safety", 5, 2, 0, 3, 0, 0⟩

/-- The largest score any enabled optional layer can contribute for the
empty string: the mock external API tops out at `0.2` ("misleading"),
the mock LLM judge at `0.15` ("misleading"), and with no optional layer
every score stays `0.0`. -/
def layerBound (cfg : CSConfig) : Score :=
  if cfg.useExternalApi then mkRat 1 5
  else if cfg.hasLlmService then mkRat 3 20
  else 0

/-- A configuration with threshold `0.0`, used to exhibit that the
empty string does not always pass. -/
def thresholdZeroConfig : CSConfig :=
  { defaultConfig with threshold := 0 }

/-- A guardrail that always blocks, for chain tests. -/
def blockingGuardrailA : Guardrail :=
  ⟨"A", fun c => (c,
    { blocked := true, modified := false, passed := false
    , reason := some ("unsafe content"), analysis := none })⟩

/-- A guardrail that always passes, for chain tests. -/
def passingGuardrailB : Guardrail :=
  ⟨"B", fun c => (c,
    { blocked := false, modified := false, passed := true
    , reason := none, analysis := none })⟩


/-- A dict has an entry for key `c`. -/
def hasKey (d : List (String × Score)) (c : String) : Prop :=
  ∃ p ∈ d, p.1 = c

/-- The well-formedness invariant of an analysis record relative to a
configuration: distinct score keys, all scores in `[0, 1]`, the flag
list is exactly the keys whose looked-up score reaches the threshold,
and `needs_modification` tracks non-emptiness of the flag list. -/
def arInv (cfg : CSConfig) (r : AnalysisResult) : Prop :=
  (r.categoryScores.map Prod.fst).Nodup ∧
  (∀ p ∈ r.categoryScores, 0 ≤ p.2 ∧ p.2 ≤ 1) ∧
  (∀ c, c ∈ r.flaggedCategories ↔
    (hasKey r.categoryScores c ∧ cfg.threshold ≤ dictGet r.categoryScores c 0)) ∧
  (r.needsModification = true ↔ r.flaggedCategories ≠ [])

/-! ## Shared helper lemmas -/

/-- Metrics bookkeeping of one `process` call: `process` bumps a counter
directly and `log_event` bumps it again, so each completed call adds `2`
to `invocations` and `2` to exactly one of the outcome counters. -/
theorem csProcess_step (env : ReEnv) (cfg : CSConfig) (m : Metrics) (c : String) :
    (csProcess env cfg m c).1.invocations = m.invocations + 2 ∧
    (((csProcess env cfg m c).1.blocks = m.blocks + 2 ∧
      (csProcess env cfg m c).1.modifications = m.modifications ∧
      (csProcess env cfg m c).1.passes = m.passes) ∨
     ((csProcess env cfg m c).1.blocks = m.blocks ∧
      (csProcess env cfg m c).1.modifications = m.modifications + 2 ∧
      (csProcess env cfg m c).1.passes = m.passes) ∨
     ((csProcess env cfg m c).1.blocks = m.blocks ∧
      (csProcess env cfg m c).1.modifications = m.modifications ∧
      (csProcess env cfg m c).1.passes = m.passes + 2)) := by
  by_cases hb : shouldBlock cfg (analyzeTextContent env cfg c) = true
  · refine ⟨?_, Or.inl ⟨?_, ?_, ?_⟩⟩ <;> simp [csProcess, hb, logEvent]
  · by_cases hm : (analyzeTextContent env cfg c).needsModification = true
    · refine ⟨?_, Or.inr (Or.inl ⟨?_, ?_, ?_⟩)⟩ <;>
        simp [csProcess, hb, hm, logEvent]
    · refine ⟨?_, Or.inr (Or.inr ⟨?_, ?_, ?_⟩)⟩ <;>
        simp [csProcess, hb, hm, logEvent]

/-- The step of `csProcessAll` preserves the counter balance. -/
theorem csProcessAll_balance (env : ReEnv) (cfg : CSConfig) :
    ∀ (contents : List String) (m : Metrics),
      m.invocations = m.blocks + m.modifications + m.passes →
      (csProcessAll env cfg m contents).invocations =
        (csProcessAll env cfg m contents).blocks +
        (csProcessAll env cfg m contents).modifications +
        (csProcessAll env cfg m contents).passes := by
  intro contents
  induction contents with
  | nil => intro m hm; simpa [csProcessAll] using hm
  | cons c rest ih =>
    intro m hm
    have hstep := csProcess_step env cfg m c
    have hbal : (csProcess env cfg m c).1.invocations =
        (csProcess env cfg m c).1.blocks + (csProcess env cfg m c).1.modifications +
        (csProcess env cfg m c).1.passes := by
      rcases hstep with ⟨hi, hcase⟩
      rcases hcase with ⟨hb, hmo, hp⟩ | ⟨hb, hmo, hp⟩ | ⟨hb, hmo, hp⟩ <;> omega
    simpa [csProcessAll] using ih ((csProcess env cfg m c).1) hbal

/-! ## C1 -/

/-- C1 (amended): after any sequence of completed `process` calls the
in-memory counters of a `ContentSafetyGuardrail` satisfy
`invocations == blocks + modifications + passes` exactly; each `process`
call raises exactly one of blocks/modifications/passes by `2` and
`invocations` by `2` (once directly in `process` and once more inside
`log_event`), not by `1` as the claim's parenthetical states. -/
theorem c1_invariant_with_double_increment (env : ReEnv) (cfg : CSConfig)
    (contents : List String) :
    ((csProcessAll env cfg initialMetrics contents).invocations =
      (csProcessAll env cfg initialMetrics contents).blocks +
      (csProcessAll env cfg initialMetrics contents).modifications +
      (csProcessAll env cfg initialMetrics contents).passes) ∧
    (∀ (m : Metrics) (c : String),
      (csProcess env cfg m c).1.invocations = m.invocations + 2 ∧
      (((csProcess env cfg m c).1.blocks = m.blocks + 2 ∧
        (csProcess env cfg m c).1.modifications = m.modifications ∧
        (csProcess env cfg m c).1.passes = m.passes) ∨
       ((csProcess env cfg m c).1.blocks = m.blocks ∧
        (csProcess env cfg m c).1.modifications = m.modifications + 2 ∧
        (csProcess env cfg m c).1.passes = m.passes) ∨
       ((csProcess env cfg m c).1.blocks = m.blocks ∧
        (csProcess env cfg m c).1.modifications = m.modifications ∧
        (csProcess env cfg m c).1.passes = m.passes + 2))) :=
  ⟨csProcessAll_balance env cfg contents initialMetrics rfl,
   fun m c => csProcess_step env cfg m c⟩

/-- C1 counterexample: one completed `process` call on a fresh guardrail
leaves `invocations = 2`, not `initialMetrics.invocations + 1 = 1` — so a
call does not raise `invocations` by exactly `1` as the claim's
parenthetical states (the invariant itself holds, `2 = 2 + 0 + 0`). -/
theorem c1_counterexample_single_call :
    ¬ ((csProcess zeroEnv defaultConfig initialMetrics ("")).1.invocations =
        initialMetrics.invocations + 1) := by
  decide

/-! ## C2 -/

/-- C2: `should_block` returns true iff some recorded category score
reaches the extreme threshold or at least two categories are flagged; the
extreme threshold defaults to `0.9` when absent from the config. -/
theorem c2_should_block_iff (cfg : CSConfig) (ar : AnalysisResult) :
    (shouldBlock cfg ar = true ↔
      ((∃ p ∈ ar.categoryScores, extremeThreshold cfg ≤ p.2) ∨
        2 ≤ ar.flaggedCategories.length)) ∧
    (∀ cats th api llm,
      extremeThreshold ⟨cats, th, api, llm, none⟩ = mkRat 9 10) ∧
    (mkRat 9 10 : ℚ) = 0.9 := by
  refine ⟨?_, fun cats th api llm => rfl, by rw [Rat.mkRat_eq_div]; norm_num⟩
  simp [shouldBlock, List.any_eq_true]


/-- Overwriting key `k` does not disturb lookups of a different key. -/
theorem find?_dictSet_ne (k : String) (v : Score) (c : String) (h : c ≠ k) :
    ∀ d : List (String × Score),
      (d.map (fun p => if p.1 = k then (k, v) else p)).find? (fun p => p.1 = c) =
        d.find? (fun p => p.1 = c) := by
  intro d
  induction d with
  | nil => rfl
  | cons p rest ih =>
    by_cases hpk : p.1 = k
    · rw [List.map_cons, if_pos hpk]
      rw [List.find?_cons_of_neg _ (by simp [Ne.symm h])]
      rw [List.find?_cons_of_neg _ (by simp [hpk, Ne.symm h])]
      exact ih
    · rw [List.map_cons, if_neg hpk]
      by_cases hpc : p.1 = c
      · rw [List.find?_cons_of_pos _ (by simp [hpc]), List.find?_cons_of_pos _ (by simp [hpc])]
      · rw [List.find?_cons_of_neg _ (by simp [hpc]), List.find?_cons_of_neg _ (by simp [hpc])]
        exact ih

/-- Lookup of key `k` after overwriting it in a dict that contains it. -/
theorem find?_dictSet_self (k : String) (v : Score) :
    ∀ d : List (String × Score), d.any (fun p => p.1 = k) = true →
      (d.map (fun p => if p.1 = k then (k, v) else p)).find? (fun p => p.1 = k) =
        some (k, v) := by
  intro d
  induction d with
  | nil => intro h; simp at h
  | cons p rest ih =>
    intro h
    by_cases hpk : p.1 = k
    · rw [List.map_cons, if_pos hpk]
      rw [List.find?_cons_of_pos _ (by simp)]
    · rw [List.map_cons, if_neg hpk]
      rw [List.find?_cons_of_neg _ (by simp [hpk])]
      refine ih ?_
      simp only [List.any_cons, Bool.or_eq_true, decide_eq_true_eq] at h
      rcases h with h | h
      · exact absurd h hpk
      · exact h

/-- Reading with `dictGet` after `dictSet`: the written key reads back the written
value, all other keys are unchanged. -/
theorem dictGet_dictSet (d : List (String × Score)) (k : String) (v : Score)
    (c : String) (w : Score) :
    dictGet (dictSet d k v) c w = if c = k then v else dictGet d c w := by
  by_cases hany : d.any (fun p => p.1 = k) = true
  · rw [dictSet, if_pos hany]
    by_cases hck : c = k
    · subst hck
      rw [dictGet, find?_dictSet_self c v d hany]
      simp
    · rw [if_neg hck, dictGet, find?_dictSet_ne k v c hck d, dictGet]
  · rw [dictSet, if_neg hany]
    have hnone : d.find? (fun p => decide (p.1 = k)) = none := by
      rw [List.find?_eq_none]
      intro p hp
      simp only [decide_eq_true_eq]
      intro hpk
      exact hany (List.any_eq_true.2 ⟨p, hp, by simp [hpk]⟩)
    by_cases hck : c = k
    · subst hck
      rw [if_pos rfl, dictGet, List.find?_append, hnone]
      simp
    · rw [if_neg hck, dictGet, List.find?_append, dictGet]
      cases hf : d.find? (fun p => decide (p.1 = c)) with
      | some p => simp
      | none => simp [Ne.symm hck]

/-- Every entry of `dictSet d k v` is the written pair or an old entry. -/
theorem mem_dictSet (d : List (String × Score)) (k : String) (v : Score)
    (q : String × Score) (hq : q ∈ dictSet d k v) : q = (k, v) ∨ q ∈ d := by
  by_cases hany : d.any (fun p => p.1 = k) = true
  · rw [dictSet, if_pos hany] at hq
    obtain ⟨p, hp, hfp⟩ := List.mem_map.1 hq
    by_cases hpk : p.1 = k
    · rw [if_pos hpk] at hfp; exact Or.inl hfp.symm
    · rw [if_neg hpk] at hfp; exact Or.inr (hfp ▸ hp)
  · rw [dictSet, if_neg hany] at hq
    rcases List.mem_append.1 hq with h | h
    · exact Or.inr h
    · simp only [List.mem_singleton] at h; exact Or.inl h

/-- The key list of `dictSet d k v`: unchanged on overwrite, extended by
`k` on append. -/
theorem keys_dictSet (d : List (String × Score)) (k : String) (v : Score) :
    (dictSet d k v).map Prod.fst =
      if d.any (fun p => p.1 = k) = true then d.map Prod.fst
      else d.map Prod.fst ++ [k] := by
  by_cases hany : d.any (fun p => p.1 = k) = true
  · rw [dictSet, if_pos hany, if_pos hany, List.map_map]
    refine List.map_congr_left ?_
    intro p _
    by_cases hpk : p.1 = k <;> simp [hpk]
  · rw [dictSet, if_neg hany, if_neg hany, List.map_append]
    rfl

/-- Writing with `dictSet` preserves distinctness of the keys. -/
theorem nodup_keys_dictSet (d : List (String × Score)) (k : String) (v : Score)
    (hnd : (d.map Prod.fst).Nodup) : ((dictSet d k v).map Prod.fst).Nodup := by
  rw [keys_dictSet]
  by_cases hany : d.any (fun p => p.1 = k) = true
  · rw [if_pos hany]; exact hnd
  · rw [if_neg hany]
    have hk : k ∉ d.map Prod.fst := by
      intro hmem
      obtain ⟨p, hp, hpk⟩ := List.mem_map.1 hmem
      exact hany (List.any_eq_true.2 ⟨p, hp, by simp [hpk]⟩)
    simp [List.nodup_append, hnd, hk]

/-- A key is present after `dictSet` iff it is the written key or was
present before. -/
theorem hasKey_dictSet (d : List (String × Score)) (k : String) (v : Score)
    (c : String) : hasKey (dictSet d k v) c ↔ (c = k ∨ hasKey d c) := by
  have hmemkeys : ∀ (e : List (String × Score)),
      hasKey e c ↔ c ∈ e.map Prod.fst := by
    intro e
    constructor
    · rintro ⟨p, hp, hpc⟩; exact List.mem_map.2 ⟨p, hp, hpc⟩
    · intro h; obtain ⟨p, hp, hpc⟩ := List.mem_map.1 h; exact ⟨p, hp, hpc⟩
  rw [hmemkeys, hmemkeys, keys_dictSet]
  by_cases hany : d.any (fun p => p.1 = k) = true
  · rw [if_pos hany]
    constructor
    · exact Or.inr
    · rintro (rfl | h)
      · obtain ⟨p, hp, hpk⟩ := List.any_eq_true.1 hany
        simp only [decide_eq_true_eq] at hpk
        exact List.mem_map.2 ⟨p, hp, hpk⟩
      · exact h
  · rw [if_neg hany]
    simp [or_comm]

/-- Lookup with `dictGet` returns the default or the value of some entry. -/
theorem dictGet_mem_or_default (d : List (String × Score)) (c : String) (w : Score) :
    dictGet d c w = w ∨ ∃ p ∈ d, p.1 = c ∧ dictGet d c w = p.2 := by
  rw [dictGet]
  cases hf : d.find? (fun p => decide (p.1 = c)) with
  | none => exact Or.inl rfl
  | some p =>
    refine Or.inr ⟨p, List.mem_of_find?_eq_some hf, ?_, rfl⟩
    have := List.find?_some hf
    simpa using this

/-- With distinct keys, `dictGet` returns the value of the entry for the
looked-up key. -/
theorem dictGet_eq_of_mem (c : String) :
    ∀ (d : List (String × Score)), (d.map Prod.fst).Nodup →
      ∀ p ∈ d, p.1 = c → dictGet d c 0 = p.2 := by
  intro d
  induction d with
  | nil => intro _ p hp; exact absurd hp (List.not_mem_nil p)
  | cons q rest ih =>
    intro hnd p hp hpc
    have hnd' : (rest.map Prod.fst).Nodup := by
      simp only [List.map_cons, List.nodup_cons] at hnd
      exact hnd.2
    have hqrest : q.1 ∉ rest.map Prod.fst := by
      simp only [List.map_cons, List.nodup_cons] at hnd
      exact hnd.1
    by_cases hqc : q.1 = c
    · rw [dictGet, List.find?_cons_of_pos _ (by simp [hqc])]
      rcases List.mem_cons.1 hp with rfl | hp'
      · rfl
      · exact absurd (List.mem_map.2 ⟨p, hp', hpc.trans hqc.symm⟩) hqrest
    · rw [dictGet, List.find?_cons_of_neg _ (by simp [hqc])]
      rcases List.mem_cons.1 hp with rfl | hp'
      · exact absurd hpc hqc
      · exact ih hnd' p hp' hpc

/-- With distinct keys, "some entry for key `c` reaches `th`" is the same
as "the key is present and its looked-up value reaches `th`". -/
theorem flag_exists_iff (d : List (String × Score)) (hnd : (d.map Prod.fst).Nodup)
    (c : String) (th : Score) :
    (∃ p ∈ d, p.1 = c ∧ th ≤ p.2) ↔ (hasKey d c ∧ th ≤ dictGet d c 0) := by
  constructor
  · rintro ⟨p, hp, hpc, hth⟩
    exact ⟨⟨p, hp, hpc⟩, by rw [dictGet_eq_of_mem c d hnd p hp hpc]; exact hth⟩
  · rintro ⟨⟨p, hp, hpc⟩, hth⟩
    exact ⟨p, hp, hpc, by rw [← dictGet_eq_of_mem c d hnd p hp hpc]; exact hth⟩

/-! ## C3: chain short-circuit -/

/-- Running the chain loop over a non-blocking prefix advances the
content and appends the prefix's step records, for any accumulator. -/
theorem chainProcessAux_append (gs : List Guardrail) :
    ∀ (pre : List Guardrail) (c : String) (acc : List ChainStep),
      prefixNoBlock pre c = true →
      chainProcessAux (pre ++ gs) c acc =
        chainProcessAux gs (contentAfter pre c) (acc ++ chainSteps pre c) := by
  intro pre
  induction pre with
  | nil => intro c acc _; simp [contentAfter, chainSteps]
  | cons g rest ih =>
    intro c acc h
    rw [prefixNoBlock] at h
    simp only [Bool.and_eq_true, Bool.not_eq_true'] at h
    obtain ⟨hg, hrest⟩ := h
    rw [List.cons_append, chainProcessAux]
    rw [if_neg (by simp [hg] : ¬ ((g.process c).2.blocked = true))]
    have hih := ih (g.process c).1 (acc ++ [⟨g.name, (g.process c).2⟩]) hrest
    simpa [contentAfter, chainSteps, List.append_assoc] using hih

/-- The number of step records of a non-blocking prefix. -/
theorem chainSteps_length :
    ∀ (gs : List Guardrail) (c : String), (chainSteps gs c).length = gs.length := by
  intro gs
  induction gs with
  | nil => intro c; rfl
  | cons g rest ih => intro c; simp [chainSteps, ih]

/-- C3: if the guardrails before `g` do not block and `g`'s result is
blocked, then the chain never invokes any guardrail after `g` (the
outcome is the same whatever follows `g`), records exactly the steps up
to and including `g`, reports `blocked=true` with `g`'s name and reason,
and returns the content as it was when `g` ran (not further modified). -/
theorem c3_chain_short_circuit (pre post : List Guardrail) (g : Guardrail) (c : String)
    (hpre : prefixNoBlock pre c = true)
    (hg : ((g.process (contentAfter pre c)).2).blocked = true) :
    chainProcess (pre ++ g :: post) c = chainProcess (pre ++ [g]) c ∧
    (chainProcess (pre ++ g :: post) c).2.guardrailResults.length = pre.length + 1 ∧
    (chainProcess (pre ++ g :: post) c).1 = contentAfter pre c ∧
    (chainProcess (pre ++ g :: post) c).2.blocked = true ∧
    (chainProcess (pre ++ g :: post) c).2.blockingGuardrail = some g.name ∧
    (chainProcess (pre ++ g :: post) c).2.blockingReason =
      some (((g.process (contentAfter pre c)).2).reason.getD ("Unknown reason")) := by
  have hrun : ∀ (post' : List Guardrail),
      chainProcess (pre ++ g :: post') c =
        (contentAfter pre c,
          ⟨chainSteps pre c ++ [⟨g.name, (g.process (contentAfter pre c)).2⟩], true,
            some g.name,
            some (((g.process (contentAfter pre c)).2).reason.getD ("Unknown reason"))⟩) := by
    intro post'
    rw [chainProcess, chainProcessAux_append (g :: post') pre c [] hpre]
    rw [chainProcessAux]
    simp [hg]
  refine ⟨?_, ?_, ?_, ?_, ?_, ?_⟩
  · rw [hrun post, hrun []]
  · rw [hrun post]; simp [chainSteps_length]
  · rw [hrun post]
  · rw [hrun post]
  · rw [hrun post]
  · rw [hrun post]

/-- C3 witness: in the chain `[A (blocks), B (would pass)]`, `B` is never
invoked, `blocked=true`, the blocking guardrail is `"A"` with its reason,
and the content comes back unchanged. -/
theorem c3_witness :
    prefixNoBlock [] ("x") = true ∧
    ((blockingGuardrailA.process (contentAfter [] ("x"))).2).blocked = true ∧
    chainProcess [blockingGuardrailA, passingGuardrailB] ("x") =
      chainProcess [blockingGuardrailA] ("x") ∧
    (chainProcess [blockingGuardrailA, passingGuardrailB] ("x")).2.guardrailResults.length = 1 ∧
    (chainProcess [blockingGuardrailA, passingGuardrailB] ("x")).2.blocked = true ∧
    (chainProcess [blockingGuardrailA, passingGuardrailB] ("x")).2.blockingGuardrail =
      some ("A") := by
  have h := c3_chain_short_circuit [] [passingGuardrailB] blockingGuardrailA ("x")
    (by decide) (by decide)
  exact ⟨by decide, by decide, by simpa using h.1, by simpa using h.2.1,
    by simpa using h.2.2.2.1, by simpa [blockingGuardrailA] using h.2.2.2.2.1⟩


/-! ## C5: pattern-layer score formula -/

/-- The exact rational `n/5` written in the source formula's shape
`n * 0.2`. -/
theorem mkRat_five_eq (n : ℕ) : (mkRat (n : ℤ) 5 : ℚ) = (n : ℚ) * 0.2 := by
  rw [Rat.mkRat_eq_div]
  push_cast
  norm_num
  ring

/-- For a single-pattern category the inner loop computes exactly
`min(1.0, len(matches) * 0.2)`, including the no-match case. -/
theorem patternCategoryScore_singleton (env : ReEnv) (text p : String) :
    patternCategoryScore env text [p] =
      min 1 ((env.findall p text : ℚ) * 0.2) := by
  unfold patternCategoryScore
  simp only [List.foldl_cons, List.foldl_nil]
  by_cases h : env.findall p text = 0
  · norm_num [h]
  · rw [if_pos h, mkRat_five_eq]
    rw [max_eq_right (le_min (by norm_num) (by positivity))]

/-- C5: every category of `harmful_patterns` has its pattern score equal
to `min(1.0, matched_pattern_count * 0.2)`, where `matched_pattern_count`
is the total number of matches of the category's patterns in the text —
one match gives `0.2`, five or more saturate at `1.0`. -/
theorem c5_pattern_score_formula (env : ReEnv) (text : String) (c : String)
    (ps : List String) (hmem : (c, ps) ∈ harmfulPatterns) :
    patternCategoryScore env text ps =
      min 1 ((matchedPatternCount env text ps : ℚ) * 0.2) := by
  have hsing : ∀ p : String, patternCategoryScore env text [p] =
      min 1 ((matchedPatternCount env text [p] : ℚ) * 0.2) := by
    intro p
    rw [patternCategoryScore_singleton]
    simp [matchedPatternCount]
  simp only [harmfulPatterns, List.mem_cons, List.not_mem_nil, or_false,
    Prod.mk.injEq] at hmem
  rcases hmem with ⟨h1, h2⟩ | ⟨h1, h2⟩ | ⟨h1, h2⟩ | ⟨h1, h2⟩ | ⟨h1, h2⟩ | ⟨h1, h2⟩ <;>
    (subst h2; exact hsing _)

/-- C5 witness: with a match-count oracle returning `3` the "misleading"
pattern list scores `min(1.0, 3 * 0.2) = 0.6`. -/
theorem c5_pattern_score_witness :
    ("misleading", ["\\b(fake news|propaganda|conspiracy|hoax)\\b"]) ∈ harmfulPatterns ∧
    patternCategoryScore ⟨fun _ _ => 3⟩ ("some text")
        ["\\b(fake news|propaganda|conspiracy|hoax)\\b"] =
      min 1 ((matchedPatternCount ⟨fun _ _ => 3⟩ ("some text")
        ["\\b(fake news|propaganda|conspiracy|hoax)\\b"] : ℚ) * 0.2) :=
  ⟨by decide,
   c5_pattern_score_formula ⟨fun _ _ => 3⟩ ("some text") ("misleading") _ (by decide)⟩


/-! ## C6: optional layers -/

/-- Unrolling one step of a layer merge. -/
theorem mergeLayer_cons (cfg : CSConfig) (r : AnalysisResult) (q : String × Score)
    (rest : List (String × Score)) :
    mergeLayer cfg r (q :: rest) = mergeLayer cfg (mergeStep cfg r q) rest := by
  rw [mergeLayer, List.foldl_cons]
  rfl

/-- A `mergeStep` only rewrites the score dict; the flag bookkeeping does
not touch `categoryScores`. -/
theorem mergeStep_scores (cfg : CSConfig) (r : AnalysisResult) (q : String × Score) :
    (mergeStep cfg r q).categoryScores =
      if q.1 ∈ cfg.categories then
        dictSet r.categoryScores q.1 (max (dictGet r.categoryScores q.1 0) q.2)
      else r.categoryScores := by
  by_cases hq : q.1 ∈ cfg.categories
  · simp only [mergeStep, if_pos hq]
    split <;> rfl
  · simp only [mergeStep, if_neg hq]

/-- A merge over entries whose keys all differ from `c` leaves the score
of `c` unchanged. -/
theorem dictGet_mergeLayer_not_mem (cfg : CSConfig) (c : String) :
    ∀ (layer : List (String × Score)) (r : AnalysisResult),
      (∀ q ∈ layer, q.1 ≠ c) →
      dictGet (mergeLayer cfg r layer).categoryScores c 0 =
        dictGet r.categoryScores c 0 := by
  intro layer
  induction layer with
  | nil => intro r _; rfl
  | cons q rest ih =>
    intro r h
    have hq : q.1 ≠ c := h q (List.mem_cons_self q rest)
    have hrest : ∀ q' ∈ rest, q'.1 ≠ c := fun q' hq' => h q' (List.mem_cons_of_mem q hq')
    rw [mergeLayer, List.foldl_cons, ← mergeLayer, ih (mergeStep cfg r q) hrest]
    rw [mergeStep_scores]
    by_cases hmem : q.1 ∈ cfg.categories
    · rw [if_pos hmem, dictGet_dictSet, if_neg (Ne.symm hq)]
    · rw [if_neg hmem]

/-- When an optional layer runs, the score it reports for a configured
category is merged by `max` with the score already recorded. -/
theorem dictGet_mergeLayer_eq_max (cfg : CSConfig) (c : String) (s : Score) :
    ∀ (layer : List (String × Score)) (r : AnalysisResult),
      (c, s) ∈ layer → (layer.map Prod.fst).Nodup → c ∈ cfg.categories →
      dictGet (mergeLayer cfg r layer).categoryScores c 0 =
        max (dictGet r.categoryScores c 0) s := by
  intro layer
  induction layer with
  | nil => intro r hm; exact absurd hm (List.not_mem_nil _)
  | cons q rest ih =>
    intro r hm hnd hc
    have hndrest : (rest.map Prod.fst).Nodup := by
      simp only [List.map_cons, List.nodup_cons] at hnd
      exact hnd.2
    have hqrest : q.1 ∉ rest.map Prod.fst := by
      simp only [List.map_cons, List.nodup_cons] at hnd
      exact hnd.1
    rcases List.mem_cons.1 hm with rfl | hmrest
    · have hrest : ∀ q' ∈ rest, q'.1 ≠ c := by
        intro q' hq' hq'c
        exact hqrest (List.mem_map.2 ⟨q', hq', hq'c⟩)
      rw [mergeLayer, List.foldl_cons, ← mergeLayer,
        dictGet_mergeLayer_not_mem cfg c rest (mergeStep cfg r (c, s)) hrest]
      rw [mergeStep_scores, if_pos hc, dictGet_dictSet, if_pos rfl]
    · have hqc : q.1 ≠ c := by
        intro hq
        exact hqrest (hq ▸ List.mem_map.2 ⟨(c, s), hmrest, rfl⟩)
      rw [mergeLayer, List.foldl_cons, ← mergeLayer,
        ih (mergeStep cfg r q) hmrest hndrest hc]
      rw [mergeStep_scores]
      by_cases hmem : q.1 ∈ cfg.categories
      · rw [if_pos hmem, dictGet_dictSet, if_neg (Ne.symm hqc)]
      · rw [if_neg hmem]

/-- Merging never lowers a recorded score. -/
theorem dictGet_mergeLayer_le (cfg : CSConfig) (c : String) :
    ∀ (layer : List (String × Score)) (r : AnalysisResult),
      dictGet r.categoryScores c 0 ≤
        dictGet (mergeLayer cfg r layer).categoryScores c 0 := by
  intro layer
  induction layer with
  | nil => intro r; exact le_refl _
  | cons q rest ih =>
    intro r
    rw [mergeLayer_cons]
    refine le_trans ?_ (ih (mergeStep cfg r q))
    rw [mergeStep_scores]
    by_cases hmem : q.1 ∈ cfg.categories
    · rw [if_pos hmem, dictGet_dictSet]
      by_cases hcq : c = q.1
      · rw [if_pos hcq, hcq]; exact le_max_left _ _
      · rw [if_neg hcq]
    · rw [if_neg hmem]

/-- C6: the external-API layer runs only when `use_external_api` is set
and the pattern layer flagged nothing, the LLM layer only when an LLM
service is configured and still nothing is flagged; a layer that runs
merges each reported score for a configured category into the dict by
taking the maximum with the existing score — never overwriting with a
lower value. -/
theorem c6_optional_layers (env : ReEnv) (cfg : CSConfig) (text : String) :
    (¬ (cfg.useExternalApi = true ∧ (patternLayer env cfg text).flaggedCategories = []) →
      afterApiLayer env cfg text = patternLayer env cfg text) ∧
    (¬ (cfg.hasLlmService = true ∧ (afterApiLayer env cfg text).flaggedCategories = []) →
      afterLlmLayer env cfg text = afterApiLayer env cfg text) ∧
    (∀ (r : AnalysisResult) (layer : List (String × Score)) (c : String) (s : Score),
      (c, s) ∈ layer → (layer.map Prod.fst).Nodup → c ∈ cfg.categories →
      dictGet (mergeLayer cfg r layer).categoryScores c 0 =
        max (dictGet r.categoryScores c 0) s) ∧
    (∀ (r : AnalysisResult) (layer : List (String × Score)) (c : String),
      dictGet r.categoryScores c 0 ≤
        dictGet (mergeLayer cfg r layer).categoryScores c 0) := by
  refine ⟨?_, ?_, ?_, ?_⟩
  · intro h
    rw [afterApiLayer, if_neg h]
  · intro h
    rw [afterLlmLayer, if_neg h]
  · intro r layer c s hm hnd hc
    exact dictGet_mergeLayer_eq_max cfg c s layer r hm hnd hc
  · intro r layer c
    exact dictGet_mergeLayer_le cfg c layer r

/-- C6 witness: with `use_external_api = False` the API layer does not
run, and a concrete max-merge of the mock API scores. -/
theorem c6_optional_layers_witness :
    afterApiLayer zeroEnv defaultConfig ("abc") = patternLayer zeroEnv defaultConfig ("abc") ∧
    dictGet (mergeLayer defaultConfig initialAnalysis checkExternalApi).categoryScores
        ("misleading") 0 =
      max (dictGet initialAnalysis.categoryScores ("misleading") 0) (mkRat 1 5) := by
  have h := c6_optional_layers zeroEnv defaultConfig ("abc")
  refine ⟨h.1 (by decide), ?_⟩
  exact h.2.2.1 initialAnalysis checkExternalApi ("misleading") (mkRat 1 5)
    (by decide) (by decide) (by decide)

/-! ## C4: analysis result well-formedness -/

/-- Looking up an absent key yields the default. -/
theorem dictGet_not_hasKey (d : List (String × Score)) (c : String) (w : Score)
    (h : ¬ hasKey d c) : dictGet d c w = w := by
  rw [dictGet]
  have : d.find? (fun p => decide (p.1 = c)) = none := by
    rw [List.find?_eq_none]
    intro p hp
    simp only [decide_eq_true_eq]
    intro hpc
    exact h ⟨p, hp, hpc⟩
  rw [this]

/-- The pattern score of a category always lies in `[0, 1]`. -/
theorem patternCategoryScore_bounds (env : ReEnv) (text : String)
    (ps : List String) :
    0 ≤ patternCategoryScore env text ps ∧ patternCategoryScore env text ps ≤ 1 := by
  rw [patternCategoryScore]
  have : ∀ (l : List String) (a : ℚ), 0 ≤ a → a ≤ 1 →
      0 ≤ l.foldl (fun categoryScore pattern =>
        let n := env.findall pattern text
        if n ≠ 0 then max categoryScore (min 1 (mkRat (n : ℤ) 5)) else categoryScore) a ∧
      l.foldl (fun categoryScore pattern =>
        let n := env.findall pattern text
        if n ≠ 0 then max categoryScore (min 1 (mkRat (n : ℤ) 5)) else categoryScore) a ≤ 1 := by
    intro l
    induction l with
    | nil => intro a h0 h1; exact ⟨h0, h1⟩
    | cons p rest ih =>
      intro a h0 h1
      rw [List.foldl_cons]
      by_cases hn : env.findall p text = 0
      · simp only [hn, ne_eq, not_true_eq_false, if_false]
        exact ih a h0 h1
      · simp only [ne_eq, hn, not_false_eq_true, if_true]
        refine ih _ (le_trans h0 (le_max_left _ _)) (max_le h1 (min_le_left _ _))
  exact this _ 0 (le_refl 0) (by norm_num)

/-- The map `patternStep` written as a single case split. -/
theorem patternStep_eq (env : ReEnv) (cfg : CSConfig) (text : String)
    (r : AnalysisResult) (entry : String × List String) :
    patternStep env cfg text r entry =
      if entry.1 ∈ cfg.categories then
        (if cfg.threshold ≤ patternCategoryScore env text entry.2 then
          { categoryScores :=
              dictSet r.categoryScores entry.1 (patternCategoryScore env text entry.2)
          , flaggedCategories := r.flaggedCategories ++ [entry.1]
          , needsModification := true
          , overallSafetyScore := r.overallSafetyScore }
        else
          { r with categoryScores :=
              dictSet r.categoryScores entry.1 (patternCategoryScore env text entry.2) })
      else r := by
  simp only [patternStep]

/-- The map `mergeStep` written as a single case split. -/
theorem mergeStep_eq (cfg : CSConfig) (r : AnalysisResult) (q : String × Score) :
    mergeStep cfg r q =
      if q.1 ∈ cfg.categories then
        (if cfg.threshold ≤ q.2 ∧ q.1 ∉ r.flaggedCategories then
          { categoryScores :=
              dictSet r.categoryScores q.1 (max (dictGet r.categoryScores q.1 0) q.2)
          , flaggedCategories := r.flaggedCategories ++ [q.1]
          , needsModification := true
          , overallSafetyScore := r.overallSafetyScore }
        else
          { r with categoryScores :=
              dictSet r.categoryScores q.1 (max (dictGet r.categoryScores q.1 0) q.2) })
      else r := by
  simp only [mergeStep]

/-- A `patternStep` preserves the analysis invariant when the category's
key is not yet present (as in the pattern layer, whose categories are
pairwise distinct). -/
theorem patternStep_inv (env : ReEnv) (cfg : CSConfig) (text : String)
    (r : AnalysisResult) (entry : String × List String)
    (hinv : arInv cfg r) (hfresh : ¬ hasKey r.categoryScores entry.1) :
    arInv cfg (patternStep env cfg text r entry) := by
  obtain ⟨hnd, hbd, hflag, hmod⟩ := hinv
  rw [patternStep_eq]
  by_cases hcat : entry.1 ∈ cfg.categories
  swap
  · rw [if_neg hcat]
    exact ⟨hnd, hbd, hflag, hmod⟩
  rw [if_pos hcat]
  set s := patternCategoryScore env text entry.2 with hs
  have hsbd := patternCategoryScore_bounds env text entry.2
  rw [← hs] at hsbd
  by_cases hth : cfg.threshold ≤ s
  · rw [if_pos hth]
    refine ⟨nodup_keys_dictSet _ _ _ hnd, ?_, ?_, by simp⟩
    · intro p hp
      rcases mem_dictSet _ _ _ p hp with rfl | hp'
      · exact hsbd
      · exact hbd p hp'
    · intro c
      show c ∈ r.flaggedCategories ++ [entry.1] ↔ _
      rw [hasKey_dictSet, dictGet_dictSet]
      by_cases hck : c = entry.1
      · subst hck
        rw [if_pos rfl]
        constructor
        · intro _; exact ⟨Or.inl rfl, hth⟩
        · intro _; exact List.mem_append.2 (Or.inr (List.mem_singleton.2 rfl))
      · rw [if_neg hck]
        constructor
        · intro hc
          rcases List.mem_append.1 hc with hc | hc
          · obtain ⟨hk, hth'⟩ := (hflag c).1 hc
            exact ⟨Or.inr hk, hth'⟩
          · exact absurd (List.mem_singleton.1 hc) hck
        · rintro ⟨hck' | hk, hth'⟩
          · exact absurd hck' hck
          · exact List.mem_append.2 (Or.inl ((hflag c).2 ⟨hk, hth'⟩))
  · rw [if_neg hth]
    refine ⟨nodup_keys_dictSet _ _ _ hnd, ?_, ?_, hmod⟩
    · intro p hp
      rcases mem_dictSet _ _ _ p hp with rfl | hp'
      · exact hsbd
      · exact hbd p hp'
    · intro c
      show c ∈ r.flaggedCategories ↔ _
      rw [hasKey_dictSet, dictGet_dictSet]
      by_cases hck : c = entry.1
      · subst hck
        rw [if_pos rfl]
        constructor
        · intro hc
          exact absurd ((hflag entry.1).1 hc).1 hfresh
        · rintro ⟨_, hth'⟩
          exact absurd hth' hth
      · rw [if_neg hck]
        constructor
        · intro hc
          obtain ⟨hk, hth'⟩ := (hflag c).1 hc
          exact ⟨Or.inr hk, hth'⟩
        · rintro ⟨hck' | hk, hth'⟩
          · exact absurd hck' hck
          · exact (hflag c).2 ⟨hk, hth'⟩

/-- Keys present after `patternStep` were present before or are the
step's category. -/
theorem patternStep_hasKey (env : ReEnv) (cfg : CSConfig) (text : String)
    (r : AnalysisResult) (entry : String × List String) (c : String)
    (h : hasKey (patternStep env cfg text r entry).categoryScores c) :
    c = entry.1 ∨ hasKey r.categoryScores c := by
  rw [patternStep_eq] at h
  by_cases hcat : entry.1 ∈ cfg.categories
  · rw [if_pos hcat] at h
    by_cases hth : cfg.threshold ≤ patternCategoryScore env text entry.2
    · rw [if_pos hth] at h
      exact (hasKey_dictSet _ _ _ _).1 h
    · rw [if_neg hth] at h
      exact (hasKey_dictSet _ _ _ _).1 h
  · rw [if_neg hcat] at h
    exact Or.inr h

/-- Folding `patternStep` over categories with distinct, fresh keys
preserves the analysis invariant. -/
theorem patternFold_inv (env : ReEnv) (cfg : CSConfig) (text : String) :
    ∀ (pats : List (String × List String)) (r : AnalysisResult),
      arInv cfg r → (pats.map Prod.fst).Nodup →
      (∀ e ∈ pats, ¬ hasKey r.categoryScores e.1) →
      arInv cfg (pats.foldl (patternStep env cfg text) r) := by
  intro pats
  induction pats with
  | nil => intro r h _ _; exact h
  | cons e rest ih =>
    intro r hinv hnd hfresh
    rw [List.foldl_cons]
    have hndrest : (rest.map Prod.fst).Nodup := by
      simp only [List.map_cons, List.nodup_cons] at hnd
      exact hnd.2
    have herest : e.1 ∉ rest.map Prod.fst := by
      simp only [List.map_cons, List.nodup_cons] at hnd
      exact hnd.1
    refine ih (patternStep env cfg text r e)
      (patternStep_inv env cfg text r e hinv (hfresh e (List.mem_cons_self e rest)))
      hndrest ?_
    intro e' he' hk
    rcases patternStep_hasKey env cfg text r e e'.1 hk with heq | hk'
    · exact herest (heq ▸ List.mem_map.2 ⟨e', he', rfl⟩)
    · exact hfresh e' (List.mem_cons_of_mem e he') hk'

/-- The empty analysis record satisfies the invariant. -/
theorem initialAnalysis_inv (cfg : CSConfig) : arInv cfg initialAnalysis := by
  refine ⟨List.nodup_nil, ?_, ?_, by simp [initialAnalysis]⟩
  · intro p hp
    exact absurd hp (List.not_mem_nil p)
  · intro c
    simp [initialAnalysis, hasKey]

/-- The pattern layer's output satisfies the invariant. -/
theorem patternLayer_inv (env : ReEnv) (cfg : CSConfig) (text : String) :
    arInv cfg (patternLayer env cfg text) := by
  rw [patternLayer]
  refine patternFold_inv env cfg text harmfulPatterns initialAnalysis
    (initialAnalysis_inv cfg) (by decide) ?_
  intro e _ hk
  obtain ⟨p, hp, _⟩ := hk
  exact absurd hp (List.not_mem_nil p)

/-- A `mergeStep` preserves the analysis invariant for any layer entry
with a score in `[0, 1]`. -/
theorem mergeStep_inv (cfg : CSConfig) (r : AnalysisResult) (q : String × Score)
    (hinv : arInv cfg r) (hq0 : 0 ≤ q.2) (hq1 : q.2 ≤ 1) :
    arInv cfg (mergeStep cfg r q) := by
  obtain ⟨hnd, hbd, hflag, hmod⟩ := hinv
  rw [mergeStep_eq]
  by_cases hcat : q.1 ∈ cfg.categories
  swap
  · rw [if_neg hcat]
    exact ⟨hnd, hbd, hflag, hmod⟩
  rw [if_pos hcat]
  have hcur : 0 ≤ dictGet r.categoryScores q.1 0 ∧ dictGet r.categoryScores q.1 0 ≤ 1 := by
    rcases dictGet_mem_or_default r.categoryScores q.1 0 with h | ⟨p, hp, _, h⟩
    · rw [h]; exact ⟨le_refl 0, by norm_num⟩
    · rw [h]; exact hbd p hp
  have hvbd : 0 ≤ max (dictGet r.categoryScores q.1 0) q.2 ∧
      max (dictGet r.categoryScores q.1 0) q.2 ≤ 1 :=
    ⟨le_trans hcur.1 (le_max_left _ _), max_le hcur.2 hq1⟩
  by_cases hbr : cfg.threshold ≤ q.2 ∧ q.1 ∉ r.flaggedCategories
  · rw [if_pos hbr]
    refine ⟨nodup_keys_dictSet _ _ _ hnd, ?_, ?_, by simp⟩
    · intro p hp
      rcases mem_dictSet _ _ _ p hp with rfl | hp'
      · exact hvbd
      · exact hbd p hp'
    · intro c
      show c ∈ r.flaggedCategories ++ [q.1] ↔ _
      rw [hasKey_dictSet, dictGet_dictSet]
      by_cases hck : c = q.1
      · subst hck
        rw [if_pos rfl]
        constructor
        · intro _; exact ⟨Or.inl rfl, le_trans hbr.1 (le_max_right _ _)⟩
        · intro _; exact List.mem_append.2 (Or.inr (List.mem_singleton.2 rfl))
      · rw [if_neg hck]
        constructor
        · intro hc
          rcases List.mem_append.1 hc with hc | hc
          · obtain ⟨hk, hth'⟩ := (hflag c).1 hc
            exact ⟨Or.inr hk, hth'⟩
          · exact absurd (List.mem_singleton.1 hc) hck
        · rintro ⟨hck' | hk, hth'⟩
          · exact absurd hck' hck
          · exact List.mem_append.2 (Or.inl ((hflag c).2 ⟨hk, hth'⟩))
  · rw [if_neg hbr]
    refine ⟨nodup_keys_dictSet _ _ _ hnd, ?_, ?_, hmod⟩
    · intro p hp
      rcases mem_dictSet _ _ _ p hp with rfl | hp'
      · exact hvbd
      · exact hbd p hp'
    · intro c
      show c ∈ r.flaggedCategories ↔ _
      rw [hasKey_dictSet, dictGet_dictSet]
      by_cases hck : c = q.1
      · subst hck
        rw [if_pos rfl]
        rcases Decidable.not_and_iff_or_not.1 hbr with hth | hfl
        · constructor
          · intro hc
            obtain ⟨hk, hth'⟩ := (hflag q.1).1 hc
            exact ⟨Or.inl rfl, le_trans hth' (le_max_left _ _)⟩
          · rintro ⟨_, hth'⟩
            rcases le_max_iff.1 hth' with hth'' | hth''
            swap
            · exact absurd hth'' hth
            by_cases hk : hasKey r.categoryScores q.1
            · exact (hflag q.1).2 ⟨hk, hth''⟩
            · rw [dictGet_not_hasKey r.categoryScores q.1 0 hk] at hth''
              exact absurd (le_trans hth'' hq0) hth
        · have hfl' : q.1 ∈ r.flaggedCategories := Decidable.not_not.1 hfl
          constructor
          · intro _
            obtain ⟨hk, hth'⟩ := (hflag q.1).1 hfl'
            exact ⟨Or.inl rfl, le_trans hth' (le_max_left _ _)⟩
          · intro _; exact hfl'
      · rw [if_neg hck]
        constructor
        · intro hc
          obtain ⟨hk, hth'⟩ := (hflag c).1 hc
          exact ⟨Or.inr hk, hth'⟩
        · rintro ⟨hck' | hk, hth'⟩
          · exact absurd hck' hck
          · exact (hflag c).2 ⟨hk, hth'⟩

/-- Merging a layer of scores in `[0, 1]` preserves the invariant. -/
theorem mergeLayer_inv (cfg : CSConfig) :
    ∀ (layer : List (String × Score)) (r : AnalysisResult),
      arInv cfg r → (∀ q ∈ layer, 0 ≤ q.2 ∧ q.2 ≤ 1) →
      arInv cfg (mergeLayer cfg r layer) := by
  intro layer
  induction layer with
  | nil => intro r h _; exact h
  | cons q rest ih =>
    intro r hinv hbd
    rw [mergeLayer_cons]
    have hq := hbd q (List.mem_cons_self q rest)
    exact ih (mergeStep cfg r q) (mergeStep_inv cfg r q hinv hq.1 hq.2)
      (fun q' hq' => hbd q' (List.mem_cons_of_mem q hq'))

/-- The invariant holds after the optional external-API layer. -/
theorem afterApiLayer_inv (env : ReEnv) (cfg : CSConfig) (text : String) :
    arInv cfg (afterApiLayer env cfg text) := by
  rw [afterApiLayer]
  split
  · exact mergeLayer_inv cfg checkExternalApi (patternLayer env cfg text)
      (patternLayer_inv env cfg text) (by decide)
  · exact patternLayer_inv env cfg text

/-- The invariant holds after the optional LLM layer. -/
theorem afterLlmLayer_inv (env : ReEnv) (cfg : CSConfig) (text : String) :
    arInv cfg (afterLlmLayer env cfg text) := by
  rw [afterLlmLayer]
  split
  · exact mergeLayer_inv cfg analyzeWithLlm (afterApiLayer env cfg text)
      (afterApiLayer_inv env cfg text) (by decide)
  · exact afterApiLayer_inv env cfg text

/-- The final safety-score bookkeeping leaves the scores, flags and
modification marker untouched. -/
theorem analyzeTextContent_fields (env : ReEnv) (cfg : CSConfig) (text : String) :
    (analyzeTextContent env cfg text).categoryScores =
      (afterLlmLayer env cfg text).categoryScores ∧
    (analyzeTextContent env cfg text).flaggedCategories =
      (afterLlmLayer env cfg text).flaggedCategories ∧
    (analyzeTextContent env cfg text).needsModification =
      (afterLlmLayer env cfg text).needsModification := by
  rw [analyzeTextContent]
  split <;> exact ⟨rfl, rfl, rfl⟩

/-- The analyzer's full output satisfies the invariant. -/
theorem analyzeTextContent_inv (env : ReEnv) (cfg : CSConfig) (text : String) :
    arInv cfg (analyzeTextContent env cfg text) := by
  obtain ⟨hsc, hfl, hnm⟩ := analyzeTextContent_fields env cfg text
  obtain ⟨hnd, hbd, hflag, hmod⟩ := afterLlmLayer_inv env cfg text
  refine ⟨?_, ?_, ?_, ?_⟩
  · rw [hsc]; exact hnd
  · rw [hsc]; exact hbd
  · intro c; rw [hsc, hfl]; exact hflag c
  · rw [hfl, hnm]; exact hmod

/-! ## C4 -/

/-- C4: every analysis of text input has all category scores in
`[0.0, 1.0]`, `flagged_categories` holds exactly the evaluated
categories whose score reaches the guardrail's threshold, and
`needs_modification` is true iff some category is flagged. -/
theorem c4_analysis_result (env : ReEnv) (cfg : CSConfig) (text : String) :
    (∀ p ∈ (analyzeTextContent env cfg text).categoryScores, 0 ≤ p.2 ∧ p.2 ≤ 1) ∧
    (∀ c, c ∈ (analyzeTextContent env cfg text).flaggedCategories ↔
      ∃ p ∈ (analyzeTextContent env cfg text).categoryScores,
        p.1 = c ∧ cfg.threshold ≤ p.2) ∧
    ((analyzeTextContent env cfg text).needsModification = true ↔
      (analyzeTextContent env cfg text).flaggedCategories ≠ []) := by
  obtain ⟨hnd, hbd, hflag, hmod⟩ := analyzeTextContent_inv env cfg text
  refine ⟨hbd, ?_, hmod⟩
  intro c
  rw [hflag c, flag_exists_iff _ hnd c cfg.threshold]

/-- C4 witness: with a match-count oracle returning `5` every default
category scores `1.0 ≥ 0.8`, so "hate" is flagged and the
flagged-iff-threshold equivalence instantiates concretely. -/
theorem c4_analysis_result_witness :
    ("hate") ∈ (analyzeTextContent ⟨fun _ _ => 5⟩ defaultConfig ("t")).flaggedCategories :=
  ((c4_analysis_result ⟨fun _ _ => 5⟩ defaultConfig ("t")).2.1 ("hate")).mpr
    ⟨("hate", 1), by decide, rfl, by decide⟩

/-! ## C7: the empty string -/

/-- A category whose patterns never match scores `0.0`. -/
theorem patternCategoryScore_zero (env : ReEnv) (text : String)
    (ps : List String) (h : ∀ pat ∈ ps, env.findall pat text = 0) :
    patternCategoryScore env text ps = 0 := by
  rw [patternCategoryScore]
  have : ∀ (l : List String), (∀ pat ∈ l, env.findall pat text = 0) → ∀ a : ℚ,
      l.foldl (fun categoryScore pattern =>
        let n := env.findall pattern text
        if n ≠ 0 then max categoryScore (min 1 (mkRat (n : ℤ) 5)) else categoryScore) a = a := by
    intro l
    induction l with
    | nil => intro _ a; rfl
    | cons p rest ih =>
      intro hl a
      rw [List.foldl_cons]
      have hp : env.findall p text = 0 := hl p (List.mem_cons_self p rest)
      simp only [hp, ne_eq, not_true_eq_false, if_false]
      exact ih (fun pat hpat => hl pat (List.mem_cons_of_mem p hpat)) a
  exact this ps h 0

/-- When no pattern matches and the threshold is positive, the pattern
fold keeps every score at `0.0` and flags nothing. -/
theorem patternFold_zero (env : ReEnv) (cfg : CSConfig) (text : String)
    (hth : 0 < cfg.threshold) :
    ∀ (pats : List (String × List String)) (r : AnalysisResult),
      (∀ e ∈ pats, patternCategoryScore env text e.2 = 0) →
      (∀ p ∈ r.categoryScores, p.2 = 0) →
      r.flaggedCategories = [] → r.needsModification = false →
      (∀ p ∈ (pats.foldl (patternStep env cfg text) r).categoryScores, p.2 = 0) ∧
      (pats.foldl (patternStep env cfg text) r).flaggedCategories = [] ∧
      (pats.foldl (patternStep env cfg text) r).needsModification = false := by
  intro pats
  induction pats with
  | nil => intro r _ h1 h2 h3; exact ⟨h1, h2, h3⟩
  | cons e rest ih =>
    intro r hz h1 h2 h3
    rw [List.foldl_cons]
    have he : patternCategoryScore env text e.2 = 0 := hz e (List.mem_cons_self e rest)
    have hz' : ∀ e' ∈ rest, patternCategoryScore env text e'.2 = 0 :=
      fun e' he' => hz e' (List.mem_cons_of_mem e he')
    refine ih (patternStep env cfg text r e) hz' ?_ ?_ ?_
    · intro p hp
      rw [patternStep_eq] at hp
      by_cases hcat : e.1 ∈ cfg.categories
      · rw [if_pos hcat, if_neg (by rw [he]; exact not_le.2 hth)] at hp
        rcases mem_dictSet _ _ _ p hp with rfl | hp'
        · exact he
        · exact h1 p hp'
      · rw [if_neg hcat] at hp
        exact h1 p hp
    · rw [patternStep_eq]
      by_cases hcat : e.1 ∈ cfg.categories
      · rw [if_pos hcat, if_neg (by rw [he]; exact not_le.2 hth)]
        exact h2
      · rw [if_neg hcat]
        exact h2
    · rw [patternStep_eq]
      by_cases hcat : e.1 ∈ cfg.categories
      · rw [if_pos hcat, if_neg (by rw [he]; exact not_le.2 hth)]
        exact h3
      · rw [if_neg hcat]
        exact h3

/-- Merging a layer bounded by `B < threshold` into a nothing-flagged
record bounded by `B` keeps everything below `B` and flags nothing. -/
theorem mergeFold_bounded (cfg : CSConfig) (B : Score) (hth : B < cfg.threshold) :
    ∀ (layer : List (String × Score)) (r : AnalysisResult),
      (∀ q ∈ layer, 0 ≤ q.2 ∧ q.2 ≤ B) →
      (∀ p ∈ r.categoryScores, 0 ≤ p.2 ∧ p.2 ≤ B) →
      r.flaggedCategories = [] → r.needsModification = false →
      (∀ p ∈ (mergeLayer cfg r layer).categoryScores, 0 ≤ p.2 ∧ p.2 ≤ B) ∧
      (mergeLayer cfg r layer).flaggedCategories = [] ∧
      (mergeLayer cfg r layer).needsModification = false := by
  intro layer
  induction layer with
  | nil => intro r _ h1 h2 h3; exact ⟨h1, h2, h3⟩
  | cons q rest ih =>
    intro r hlay h1 h2 h3
    rw [mergeLayer_cons]
    have hq := hlay q (List.mem_cons_self q rest)
    have hnotflag : ¬ (cfg.threshold ≤ q.2 ∧ q.1 ∉ r.flaggedCategories) := by
      rintro ⟨hth', _⟩
      exact absurd hth' (not_le.2 (lt_of_le_of_lt hq.2 hth))
    have hcur : 0 ≤ dictGet r.categoryScores q.1 0 ∧ dictGet r.categoryScores q.1 0 ≤ B := by
      rcases dictGet_mem_or_default r.categoryScores q.1 0 with h | ⟨p, hp, _, h⟩
      · rw [h]; exact ⟨le_refl 0, le_trans hq.1 hq.2⟩
      · rw [h]; exact h1 p hp
    refine ih (mergeStep cfg r q) (fun q' hq' => hlay q' (List.mem_cons_of_mem q hq'))
      ?_ ?_ ?_
    · intro p hp
      rw [mergeStep_eq] at hp
      by_cases hcat : q.1 ∈ cfg.categories
      · rw [if_pos hcat, if_neg hnotflag] at hp
        rcases mem_dictSet _ _ _ p hp with rfl | hp'
        · exact ⟨le_trans hcur.1 (le_max_left _ _), max_le hcur.2 hq.2⟩
        · exact h1 p hp'
      · rw [if_neg hcat] at hp
        exact h1 p hp
    · rw [mergeStep_eq]
      by_cases hcat : q.1 ∈ cfg.categories
      · rw [if_pos hcat, if_neg hnotflag]
        exact h2
      · rw [if_neg hcat]
        exact h2
    · rw [mergeStep_eq]
      by_cases hcat : q.1 ∈ cfg.categories
      · rw [if_pos hcat, if_neg hnotflag]
        exact h3
      · rw [if_neg hcat]
        exact h3

/-- The layer bound is never negative. -/
theorem layerBound_nonneg (cfg : CSConfig) : 0 ≤ layerBound cfg := by
  rw [layerBound]
  split
  · decide
  · split
    · decide
    · exact le_refl 0

/-- After the optional layers, on input with no pattern matches every
score is at most the layer bound and nothing is flagged. -/
theorem afterLlmLayer_bounded (env : ReEnv) (cfg : CSConfig)
    (hre : ∀ pat, env.findall pat ("") = 0)
    (hthr : layerBound cfg < cfg.threshold) :
    (∀ p ∈ (afterLlmLayer env cfg ("")).categoryScores,
      0 ≤ p.2 ∧ p.2 ≤ layerBound cfg) ∧
    (afterLlmLayer env cfg ("")).flaggedCategories = [] ∧
    (afterLlmLayer env cfg ("")).needsModification = false := by
  have hth0 : 0 < cfg.threshold := lt_of_le_of_lt (layerBound_nonneg cfg) hthr
  have hpat : (∀ p ∈ (patternLayer env cfg ("")).categoryScores, p.2 = 0) ∧
      (patternLayer env cfg ("")).flaggedCategories = [] ∧
      (patternLayer env cfg ("")).needsModification = false := by
    rw [patternLayer]
    refine patternFold_zero env cfg ("") hth0 harmfulPatterns initialAnalysis ?_ ?_ rfl rfl
    · intro e _
      exact patternCategoryScore_zero env ("") e.2 (fun pat _ => hre pat)
    · intro p hp
      exact absurd hp (List.not_mem_nil p)
  have hpatB : ∀ p ∈ (patternLayer env cfg ("")).categoryScores,
      0 ≤ p.2 ∧ p.2 ≤ layerBound cfg := by
    intro p hp
    rw [hpat.1 p hp]
    exact ⟨le_refl 0, layerBound_nonneg cfg⟩
  have hapi : (∀ p ∈ (afterApiLayer env cfg ("")).categoryScores,
      0 ≤ p.2 ∧ p.2 ≤ layerBound cfg) ∧
      (afterApiLayer env cfg ("")).flaggedCategories = [] ∧
      (afterApiLayer env cfg ("")).needsModification = false := by
    rw [afterApiLayer]
    split
    · next hcond =>
      have hBapi : layerBound cfg = mkRat 1 5 := by
        rw [layerBound, if_pos hcond.1]
      refine mergeFold_bounded cfg (layerBound cfg) hthr checkExternalApi
        (patternLayer env cfg ("")) ?_ hpatB hpat.2.1 hpat.2.2
      rw [hBapi]
      decide
    · exact ⟨hpatB, hpat.2.1, hpat.2.2⟩
  rw [afterLlmLayer]
  split
  · next hcond =>
    have hBllm : ∀ q ∈ analyzeWithLlm, 0 ≤ q.2 ∧ q.2 ≤ layerBound cfg := by
      rw [layerBound]
      by_cases hapi' : cfg.useExternalApi = true
      · rw [if_pos hapi']
        decide
      · rw [if_neg hapi', if_pos hcond.1]
        decide
    exact mergeFold_bounded cfg (layerBound cfg) hthr analyzeWithLlm
      (afterApiLayer env cfg ("")) hBllm hapi.1 hapi.2.1 hapi.2.2
  · exact hapi

/-- C7 (amended): processing the empty string passes unchanged provided
the thresholds clear every score the enabled layers can produce: with no
optional layer, `threshold > 0` and `extreme_threshold > 0`; with the
external API, both above `0.2`; with only the LLM judge, both above
`0.15` (`layerBound`).  The unamended claim fails at `threshold = 0`. -/
theorem c7_empty_string_passes (env : ReEnv) (cfg : CSConfig) (m : Metrics)
    (hre : ∀ pat, env.findall pat ("") = 0)
    (hthr : layerBound cfg < cfg.threshold)
    (hext : layerBound cfg < extremeThreshold cfg) :
    (csProcess env cfg m ("")).2.1 = ("") ∧
    (csProcess env cfg m ("")).2.2.passed = true ∧
    (csProcess env cfg m ("")).2.2.blocked = false ∧
    (csProcess env cfg m ("")).2.2.modified = false := by
  obtain ⟨hbd, hfl, hnm⟩ := afterLlmLayer_bounded env cfg hre hthr
  obtain ⟨hsc, hfl', hnm'⟩ := analyzeTextContent_fields env cfg ("")
  have hsb : shouldBlock cfg (analyzeTextContent env cfg ("")) = false := by
    rw [shouldBlock]
    rw [Bool.or_eq_false_iff]
    constructor
    · rw [List.any_eq_false]
      intro p hp
      rw [hsc] at hp
      simp only [decide_eq_true_eq]
      exact not_le.2 (lt_of_le_of_lt (hbd p hp).2 hext)
    · rw [hfl'] at *
      rw [hfl]
      decide
  have hnm2 : (analyzeTextContent env cfg ("")).needsModification = false := by
    rw [hnm', hnm]
  rw [csProcess]
  rw [if_neg (by rw [hsb]; exact Bool.false_ne_true)]
  rw [if_neg (by rw [hnm2]; exact Bool.false_ne_true)]
  exact ⟨rfl, rfl, rfl, rfl⟩

/-- C7 counterexample: with threshold `0.0` (and default everything
else) the empty string is blocked, not passed — all six categories score
`0.0 ≥ 0.0` and get flagged, and two or more flags force a block. -/
theorem c7_counterexample_threshold_zero :
    (csProcess zeroEnv thresholdZeroConfig initialMetrics ("")).2.2.blocked = true ∧
    (csProcess zeroEnv thresholdZeroConfig initialMetrics ("")).2.2.passed = false := by
  decide

/-- C7 witness: the default configuration (threshold `0.8`, no optional
layers, extreme threshold `0.9`) passes the empty string unchanged. -/
theorem c7_empty_string_witness :
    (csProcess zeroEnv defaultConfig initialMetrics ("")).2.1 = ("") ∧
    (csProcess zeroEnv defaultConfig initialMetrics ("")).2.2.passed = true :=
  ⟨(c7_empty_string_passes zeroEnv defaultConfig initialMetrics
      (fun _ => rfl) (by decide) (by decide)).1,
   (c7_empty_string_passes zeroEnv defaultConfig initialMetrics
      (fun _ => rfl) (by decide) (by decide)).2.1⟩

/-! ## C10: unknown event types and the daily-metrics asymmetry -/

/-- The update `_update_daily_metrics` never touches the event table. -/
theorem updateDailyMetrics_events (db : MonitorDB) (today g et : String) :
    (updateDailyMetrics db today g et).events = db.events := by
  rw [updateDailyMetrics]
  split <;> rfl

/-- An event type outside block/modify/pass leaves a metric row alone. -/
theorem bumpRow_unknown (et : String) (r : MetricRow)
    (hb : et ≠ "block") (hm : et ≠ "modify") (hp : et ≠ "pass") :
    bumpRow et r = r := by
  rw [bumpRow, if_neg hb, if_neg hm, if_neg hp]

/-- C10: an event with an unrecognised type is still inserted into the
event log, but the daily-metrics update is asymmetric — with no existing
`(today, name)` row a fresh row with `invocations = 1` and zero outcome
counters is created (violating `invocations = blocks + modifications +
passes`), while with an existing row nothing at all is incremented. -/
theorem c10_unknown_event_type (db : MonitorDB) (nowIso today g et : String)
    (hb : et ≠ "block") (hm : et ≠ "modify") (hp : et ≠ "pass") :
    ((monitorLogEvent db nowIso today g et).1.events =
      db.events ++ [⟨db.nextId, nowIso, g, et, none⟩]) ∧
    (db.metrics.any (fun r => r.date = today ∧ r.guardrailName = g) = true →
      (monitorLogEvent db nowIso today g et).1.metrics = db.metrics) ∧
    (db.metrics.any (fun r => r.date = today ∧ r.guardrailName = g) = false →
      ((monitorLogEvent db nowIso today g et).1.metrics =
        db.metrics ++ [newMetricRow today g et] ∧
      (newMetricRow today g et).invocations = 1 ∧
      (newMetricRow today g et).blocks + (newMetricRow today g et).modifications +
        (newMetricRow today g et).passes = 0)) := by
  refine ⟨?_, ?_, ?_⟩
  · rw [monitorLogEvent, updateDailyMetrics_events]
  · intro hany
    rw [monitorLogEvent, updateDailyMetrics, if_pos hany]
    show db.metrics.map _ = db.metrics
    rw [show db.metrics.map (fun r =>
        if r.date = today ∧ r.guardrailName = g then bumpRow et r else r) =
          db.metrics.map id from
        List.map_congr_left (fun r _ => by
          rw [bumpRow_unknown et r hb hm hp]
          split <;> rfl),
      List.map_id]
  · intro hany
    refine ⟨?_, rfl, ?_⟩
    · rw [monitorLogEvent, updateDailyMetrics, if_neg (by rw [hany]; exact Bool.false_ne_true)]
    · simp [newMetricRow, hb, hm, hp]

/-- C10 witness: logging a `"weird"` event into an empty store inserts
the event and creates a daily row with `invocations = 1` but no outcome
counters; logging it again (row now exists) changes no counter. -/
theorem c10_unknown_event_type_witness :
    ((monitorLogEvent ⟨[], [], 1⟩ ("2026-01-01T10:00:00") ("2026-01-01")
        ("content_safety") ("weird")).1.metrics =
      [newMetricRow ("2026-01-01") ("content_safety") ("weird")] ∧
    (newMetricRow ("2026-01-01") ("content_safety") ("weird")).invocations = 1 ∧
    (newMetricRow ("2026-01-01") ("content_safety") ("weird")).blocks +
      (newMetricRow ("2026-01-01") ("content_safety") ("weird")).modifications +
      (newMetricRow ("2026-01-01") ("content_safety") ("weird")).passes = 0) ∧
    (monitorLogEvent (monitorLogEvent ⟨[], [], 1⟩ ("2026-01-01T10:00:00") ("2026-01-01")
        ("content_safety") ("weird")).1 ("2026-01-01T11:00:00") ("2026-01-01")
        ("content_safety") ("weird")).1.metrics =
      (monitorLogEvent ⟨[], [], 1⟩ ("2026-01-01T10:00:00") ("2026-01-01")
        ("content_safety") ("weird")).1.metrics := by
  have h1 := c10_unknown_event_type ⟨[], [], 1⟩ ("2026-01-01T10:00:00") ("2026-01-01")
    ("content_safety") ("weird") (by decide) (by decide) (by decide)
  have h2 := c10_unknown_event_type
    (monitorLogEvent ⟨[], [], 1⟩ ("2026-01-01T10:00:00") ("2026-01-01")
      ("content_safety") ("weird")).1
    ("2026-01-01T11:00:00") ("2026-01-01") ("content_safety") ("weird")
    (by decide) (by decide) (by decide)
  refine ⟨?_, h2.2.1 (by decide)⟩
  have h3 := h1.2.2 (by decide)
  exact ⟨by rw [h3.1]; rfl, h3.2.1, h3.2.2⟩

/-! ## C9: user feedback increments -/

/-- After `record_user_feedback`, the event is still found under its id,
now carrying the feedback; its other fields are unchanged. -/
theorem recordUserFeedback_find (dateOf : String → String) (db : MonitorDB)
    (eventId : ℕ) (feedback : String) (e : EventRow)
    (h : db.events.find? (fun x => x.id = eventId) = some e) :
    (recordUserFeedback dateOf db eventId feedback).events.find?
        (fun x => x.id = eventId) =
      some { e with userFeedback := some feedback } := by
  have hid : e.id = eventId := by
    have := List.find?_some h
    simpa using this
  have hf : ∀ (l : List EventRow),
      (l.map (fun x => if x.id = eventId then { x with userFeedback := some feedback }
          else x)).find? (fun x => decide (x.id = eventId)) =
        (l.find? (fun x => decide (x.id = eventId))).map
          (fun x => if x.id = eventId then { x with userFeedback := some feedback } else x) := by
    intro l
    rw [List.find?_map]
    have hpred : ((fun x : EventRow => decide (x.id = eventId)) ∘ fun x =>
        if x.id = eventId then { x with userFeedback := some feedback } else x) =
        (fun x : EventRow => decide (x.id = eventId)) := by
      funext x
      by_cases hx : x.id = eventId <;> simp [hx]
    rw [hpred]
  have hev : (recordUserFeedback dateOf db eventId feedback).events =
      db.events.map (fun x =>
        if x.id = eventId then { x with userFeedback := some feedback } else x) := by
    rw [recordUserFeedback]
    split
    · split
      · rfl
      · split <;> rfl
    · rfl
  rw [hev, hf db.events, h]
  simp [hid]

/-- The metric table after a `false_positive` feedback on a found event:
every row of the event's `(date, name)` pair is incremented. -/
theorem recordUserFeedback_fp_metrics (dateOf : String → String) (db : MonitorDB)
    (eventId : ℕ) (e : EventRow)
    (h : db.events.find? (fun x => x.id = eventId) = some e) :
    (recordUserFeedback dateOf db eventId ("false_positive")).metrics =
      db.metrics.map (fun r =>
        if r.date = dateOf e.timestamp ∧ r.guardrailName = e.guardrailName then
          { r with falsePositives := r.falsePositives + 1 }
        else r) := by
  have hf := recordUserFeedback_find dateOf db eventId ("false_positive") e h
  rw [recordUserFeedback]
  rw [if_pos (Or.inl rfl)]
  have hfind : ({ db with events := db.events.map (fun x =>
      if x.id = eventId then { x with userFeedback := some ("false_positive") } else x)
      } : MonitorDB).events.find? (fun x => x.id = eventId) =
      some { e with userFeedback := some ("false_positive") } := by
    have hev : (recordUserFeedback dateOf db eventId ("false_positive")).events =
        db.events.map (fun x =>
          if x.id = eventId then { x with userFeedback := some ("false_positive") }
          else x) := by
      rw [recordUserFeedback]
      split
      · split
        · rfl
        · split <;> rfl
      · rfl
    rw [← hev]
    exact hf
  rw [hfind]
  dsimp only
  rw [if_pos rfl]

/-- One `false_positive` bump adds the match count to the filtered sum
of `false_positives`. -/
theorem sum_fp_bump (date g : String) :
    ∀ (l : List MetricRow),
      (((l.map (fun r =>
          if r.date = date ∧ r.guardrailName = g then
            { r with falsePositives := r.falsePositives + 1 }
          else r)).filter (fun r => r.date = date ∧ r.guardrailName = g)).map
        (fun r => r.falsePositives)).sum =
      ((l.filter (fun r => r.date = date ∧ r.guardrailName = g)).map
        (fun r => r.falsePositives)).sum +
      l.countP (fun r => r.date = date ∧ r.guardrailName = g) := by
  intro l
  induction l with
  | nil => rfl
  | cons r rest ih =>
    by_cases hr : r.date = date ∧ r.guardrailName = g
    · simp only [List.map_cons, if_pos hr, List.filter_cons, List.countP_cons]
      rw [if_pos (by simpa using hr)]
      simp only [decide_eq_true_eq]
      rw [if_pos (by simpa using hr)]
      simp only [List.map_cons, List.sum_cons, if_pos hr]
      rw [ih]
      omega
    · simp only [List.map_cons, if_neg hr, List.filter_cons, List.countP_cons]
      rw [if_neg (by simpa using hr), if_neg (by simpa using hr)]
      simp only [decide_eq_true_eq, if_neg hr]
      rw [ih]
      omega

/-- A `false_positive` bump leaves the `(date, name)` match count
unchanged. -/
theorem countP_fp_bump (date g : String) :
    ∀ (l : List MetricRow),
      (l.map (fun r =>
        if r.date = date ∧ r.guardrailName = g then
          { r with falsePositives := r.falsePositives + 1 }
        else r)).countP (fun r => r.date = date ∧ r.guardrailName = g) =
      l.countP (fun r => r.date = date ∧ r.guardrailName = g) := by
  intro l
  rw [List.countP_map]
  refine List.countP_congr ?_
  intro r _
  by_cases hr : r.date = date ∧ r.guardrailName = g <;> simp [hr]

/-- The metric table after a `false_negative` feedback on a found event. -/
theorem recordUserFeedback_fn_metrics (dateOf : String → String) (db : MonitorDB)
    (eventId : ℕ) (e : EventRow)
    (h : db.events.find? (fun x => x.id = eventId) = some e) :
    (recordUserFeedback dateOf db eventId ("false_negative")).metrics =
      db.metrics.map (fun r =>
        if r.date = dateOf e.timestamp ∧ r.guardrailName = e.guardrailName then
          { r with falseNegatives := r.falseNegatives + 1 }
        else r) := by
  have hf := recordUserFeedback_find dateOf db eventId ("false_negative") e h
  rw [recordUserFeedback]
  rw [if_pos (Or.inr rfl)]
  have hfind : ({ db with events := db.events.map (fun x =>
      if x.id = eventId then { x with userFeedback := some ("false_negative") } else x)
      } : MonitorDB).events.find? (fun x => x.id = eventId) =
      some { e with userFeedback := some ("false_negative") } := by
    have hev : (recordUserFeedback dateOf db eventId ("false_negative")).events =
        db.events.map (fun x =>
          if x.id = eventId then { x with userFeedback := some ("false_negative") }
          else x) := by
      rw [recordUserFeedback]
      split
      · split
        · rfl
        · split <;> rfl
      · rfl
    rw [← hev]
    exact hf
  rw [hfind]
  dsimp only
  rw [if_neg (by decide)]

/-- One `false_negative` bump adds the match count to the filtered sum
of `false_negatives`. -/
theorem sum_fn_bump (date g : String) :
    ∀ (l : List MetricRow),
      (((l.map (fun r =>
          if r.date = date ∧ r.guardrailName = g then
            { r with falseNegatives := r.falseNegatives + 1 }
          else r)).filter (fun r => r.date = date ∧ r.guardrailName = g)).map
        (fun r => r.falseNegatives)).sum =
      ((l.filter (fun r => r.date = date ∧ r.guardrailName = g)).map
        (fun r => r.falseNegatives)).sum +
      l.countP (fun r => r.date = date ∧ r.guardrailName = g) := by
  intro l
  induction l with
  | nil => rfl
  | cons r rest ih =>
    by_cases hr : r.date = date ∧ r.guardrailName = g
    · simp only [List.map_cons, if_pos hr, List.filter_cons, List.countP_cons]
      rw [if_pos (by simpa using hr)]
      simp only [decide_eq_true_eq]
      rw [if_pos (by simpa using hr)]
      simp only [List.map_cons, List.sum_cons, if_pos hr]
      rw [ih]
      omega
    · simp only [List.map_cons, if_neg hr, List.filter_cons, List.countP_cons]
      rw [if_neg (by simpa using hr), if_neg (by simpa using hr)]
      simp only [decide_eq_true_eq, if_neg hr]
      rw [ih]
      omega

/-- C9: on an existing event whose `(date, name)` pair owns exactly one
daily metric row, a `"false_positive"` feedback raises that row's
`false_positives` by exactly `1`; a second identical call raises it
again (no deduplication); a `"false_negative"` feedback raises
`false_negatives` the same way. -/
theorem c9_feedback_increments (dateOf : String → String) (db : MonitorDB)
    (eventId : ℕ) (e : EventRow)
    (hfind : db.events.find? (fun x => x.id = eventId) = some e)
    (hone : db.metrics.countP
      (fun r => r.date = dateOf e.timestamp ∧ r.guardrailName = e.guardrailName) = 1) :
    fpTotal (recordUserFeedback dateOf db eventId ("false_positive"))
        (dateOf e.timestamp) e.guardrailName =
      fpTotal db (dateOf e.timestamp) e.guardrailName + 1 ∧
    fpTotal (recordUserFeedback dateOf
        (recordUserFeedback dateOf db eventId ("false_positive")) eventId
        ("false_positive"))
        (dateOf e.timestamp) e.guardrailName =
      fpTotal db (dateOf e.timestamp) e.guardrailName + 2 ∧
    fnTotal (recordUserFeedback dateOf db eventId ("false_negative"))
        (dateOf e.timestamp) e.guardrailName =
      fnTotal db (dateOf e.timestamp) e.guardrailName + 1 := by
  have h1 : fpTotal (recordUserFeedback dateOf db eventId ("false_positive"))
      (dateOf e.timestamp) e.guardrailName =
      fpTotal db (dateOf e.timestamp) e.guardrailName + 1 := by
    rw [fpTotal, recordUserFeedback_fp_metrics dateOf db eventId e hfind,
      sum_fp_bump (dateOf e.timestamp) e.guardrailName db.metrics, hone]
    rfl
  have hfind2 := recordUserFeedback_find dateOf db eventId ("false_positive") e hfind
  have hx := recordUserFeedback_fp_metrics dateOf
    (recordUserFeedback dateOf db eventId ("false_positive")) eventId
    { e with userFeedback := some ("false_positive") } hfind2
  dsimp only at hx
  have hcount : (recordUserFeedback dateOf db eventId ("false_positive")).metrics.countP
      (fun r => r.date = dateOf e.timestamp ∧ r.guardrailName = e.guardrailName) = 1 := by
    rw [recordUserFeedback_fp_metrics dateOf db eventId e hfind,
      countP_fp_bump (dateOf e.timestamp) e.guardrailName, hone]
  have h2 : fpTotal (recordUserFeedback dateOf
      (recordUserFeedback dateOf db eventId ("false_positive")) eventId
      ("false_positive")) (dateOf e.timestamp) e.guardrailName =
      fpTotal db (dateOf e.timestamp) e.guardrailName + 2 := by
    rw [fpTotal, hx,
      sum_fp_bump (dateOf e.timestamp) e.guardrailName
        (recordUserFeedback dateOf db eventId ("false_positive")).metrics,
      hcount]
    rw [← fpTotal, h1]
  have h3 : fnTotal (recordUserFeedback dateOf db eventId ("false_negative"))
      (dateOf e.timestamp) e.guardrailName =
      fnTotal db (dateOf e.timestamp) e.guardrailName + 1 := by
    rw [fnTotal, recordUserFeedback_fn_metrics dateOf db eventId e hfind,
      sum_fn_bump (dateOf e.timestamp) e.guardrailName db.metrics, hone]
    rfl
  exact ⟨h1, h2, h3⟩

/-- C9 witness: on a one-event, one-row database a `false_positive`
feedback sets the row's total to `1`, and repeating it sets `2`. -/
theorem c9_feedback_increments_witness :
    fpTotal (recordUserFeedback (fun s => s) c9db 1 ("false_positive"))
        ((fun s : String => s) c9event.timestamp) c9event.guardrailName = 1 ∧
    fpTotal (recordUserFeedback (fun s => s)
        (recordUserFeedback (fun s => s) c9db 1 ("false_positive")) 1
        ("false_positive"))
        ((fun s : String => s) c9event.timestamp) c9event.guardrailName = 2 := by
  have h := c9_feedback_increments (fun s => s) c9db 1 c9event (by decide) (by decide)
  exact ⟨by rw [h.1]; decide, by rw [h.2.1]; decide⟩

/-! ## C8: get_metrics rates -/

/-- The accumulation pass never touches the global rate fields. -/
theorem accFold_rates (rows : List MetricRow) :
    ∀ (rep : MetricsReport),
      (rows.foldl accRow rep).blockRate = rep.blockRate ∧
      (rows.foldl accRow rep).modificationRate = rep.modificationRate ∧
      (rows.foldl accRow rep).passRate = rep.passRate ∧
      (rows.foldl accRow rep).falsePositiveRate = rep.falsePositiveRate := by
  induction rows with
  | nil => intro rep; exact ⟨rfl, rfl, rfl, rfl⟩
  | cons r rest ih =>
    intro rep
    rw [List.foldl_cons]
    exact ih (accRow rep r)

/-- Accumulating a row keeps every per-guardrail rate key absent. -/
theorem updGuardrail_rates_none (d : List (String × GuardrailAgg)) (g : String)
    (r : MetricRow)
    (h : ∀ p ∈ d, p.2.blockRate = none ∧ p.2.modificationRate = none ∧
      p.2.passRate = none ∧ p.2.falsePositiveRate = none) :
    ∀ p ∈ updGuardrail d g r, p.2.blockRate = none ∧ p.2.modificationRate = none ∧
      p.2.passRate = none ∧ p.2.falsePositiveRate = none := by
  intro p hp
  rw [updGuardrail] at hp
  by_cases hany : d.any (fun q => q.1 = g) = true
  · rw [if_pos hany] at hp
    obtain ⟨q, hq, hfq⟩ := List.mem_map.1 hp
    by_cases hqg : q.1 = g
    · rw [if_pos hqg] at hfq
      rw [← hfq]
      exact h q hq
    · rw [if_neg hqg] at hfq
      exact hfq ▸ h q hq
  · rw [if_neg hany] at hp
    rcases List.mem_append.1 hp with hq | hq
    · exact h p hq
    · simp only [List.mem_singleton] at hq
      subst hq
      exact ⟨rfl, rfl, rfl, rfl⟩

/-- After the accumulation fold, every per-guardrail bucket still has
all four rate keys absent. -/
theorem accFold_byGuardrail_none (rows : List MetricRow) :
    ∀ (rep : MetricsReport),
      (∀ p ∈ rep.byGuardrail, p.2.blockRate = none ∧ p.2.modificationRate = none ∧
        p.2.passRate = none ∧ p.2.falsePositiveRate = none) →
      ∀ p ∈ (rows.foldl accRow rep).byGuardrail,
        p.2.blockRate = none ∧ p.2.modificationRate = none ∧
        p.2.passRate = none ∧ p.2.falsePositiveRate = none := by
  induction rows with
  | nil => intro rep h; exact h
  | cons r rest ih =>
    intro rep h
    rw [List.foldl_cons]
    exact ih (accRow rep r) (updGuardrail_rates_none rep.byGuardrail r.guardrailName r h)

/-- The global rate computation neither changes the totals nor the
buckets. -/
theorem withGlobalRates_fields (rep : MetricsReport) :
    (withGlobalRates rep).totalInvocations = rep.totalInvocations ∧
    (withGlobalRates rep).totalBlocks = rep.totalBlocks ∧
    (withGlobalRates rep).totalModifications = rep.totalModifications ∧
    (withGlobalRates rep).totalPasses = rep.totalPasses ∧
    (withGlobalRates rep).totalFalsePositives = rep.totalFalsePositives ∧
    (withGlobalRates rep).byGuardrail = rep.byGuardrail := by
  simp only [withGlobalRates]
  split
  · split <;> exact ⟨rfl, rfl, rfl, rfl, rfl, rfl⟩
  · exact ⟨rfl, rfl, rfl, rfl, rfl, rfl⟩

/-- The per-guardrail rate computation keeps the counters. -/
theorem computeGuardrailRates_counters (a : GuardrailAgg) :
    (computeGuardrailRates a).counters = a.counters := by
  simp only [computeGuardrailRates]
  split
  · split <;> rfl
  · rfl

/-- The per-guardrail rate computation, fully described, starting from a
bucket with all rate keys absent. -/
theorem computeGuardrailRates_spec (a : GuardrailAgg)
    (h : a.blockRate = none ∧ a.modificationRate = none ∧
      a.passRate = none ∧ a.falsePositiveRate = none) :
    (a.counters.invocations = 0 →
      (computeGuardrailRates a).blockRate = none ∧
      (computeGuardrailRates a).modificationRate = none ∧
      (computeGuardrailRates a).passRate = none ∧
      (computeGuardrailRates a).falsePositiveRate = none) ∧
    (0 < a.counters.invocations →
      (computeGuardrailRates a).blockRate =
        some ((a.counters.blocks : ℚ) / (a.counters.invocations : ℚ)) ∧
      (computeGuardrailRates a).modificationRate =
        some ((a.counters.modifications : ℚ) / (a.counters.invocations : ℚ)) ∧
      (computeGuardrailRates a).passRate =
        some ((a.counters.passes : ℚ) / (a.counters.invocations : ℚ)) ∧
      (a.counters.blocks + a.counters.modifications = 0 →
        (computeGuardrailRates a).falsePositiveRate = none) ∧
      (0 < a.counters.blocks + a.counters.modifications →
        (computeGuardrailRates a).falsePositiveRate =
          some ((a.counters.falsePositives : ℚ) /
            ((a.counters.blocks + a.counters.modifications : ℕ) : ℚ)))) := by
  simp only [computeGuardrailRates]
  by_cases hi : 0 < a.counters.invocations
  · rw [if_pos hi]
    by_cases hbm : 0 < a.counters.blocks + a.counters.modifications
    · rw [if_pos hbm]
      exact ⟨fun h0 => absurd h0 (by omega),
        fun _ => ⟨rfl, rfl, rfl, fun h0 => absurd h0 (by omega), fun _ => rfl⟩⟩
    · rw [if_neg hbm]
      exact ⟨fun h0 => absurd h0 (by omega),
        fun _ => ⟨rfl, rfl, rfl, fun _ => h.2.2.2, fun h0 => absurd h0 hbm⟩⟩
  · rw [if_neg hi]
    exact ⟨fun _ => h, fun h0 => absurd h0 hi⟩

/-- C8 (amended): `get_metrics` never divides by zero.  Globally, every
rate field is `0.0` when total invocations are `0`, and the
false-positive rate stays `0.0` when `blocks + modifications = 0`; with
positive denominators the rates are the exact quotients.  Per guardrail,
however, a rate key is only *added* when its denominator is positive —
with a zero denominator the key is simply absent (`none`), in
particular `false_positive_rate` when the bucket has no blocks or
modifications; present keys again hold the exact quotients. -/
theorem c8_rate_fields (rows : List MetricRow) (gn sd ed : Option String) :
    ((getMetrics rows gn sd ed).totalInvocations = 0 →
      (getMetrics rows gn sd ed).blockRate = 0 ∧
      (getMetrics rows gn sd ed).modificationRate = 0 ∧
      (getMetrics rows gn sd ed).passRate = 0 ∧
      (getMetrics rows gn sd ed).falsePositiveRate = 0) ∧
    (0 < (getMetrics rows gn sd ed).totalInvocations →
      (getMetrics rows gn sd ed).blockRate =
        ((getMetrics rows gn sd ed).totalBlocks : ℚ) /
          ((getMetrics rows gn sd ed).totalInvocations : ℚ) ∧
      (getMetrics rows gn sd ed).modificationRate =
        ((getMetrics rows gn sd ed).totalModifications : ℚ) /
          ((getMetrics rows gn sd ed).totalInvocations : ℚ) ∧
      (getMetrics rows gn sd ed).passRate =
        ((getMetrics rows gn sd ed).totalPasses : ℚ) /
          ((getMetrics rows gn sd ed).totalInvocations : ℚ) ∧
      ((getMetrics rows gn sd ed).totalBlocks +
          (getMetrics rows gn sd ed).totalModifications = 0 →
        (getMetrics rows gn sd ed).falsePositiveRate = 0) ∧
      (0 < (getMetrics rows gn sd ed).totalBlocks +
          (getMetrics rows gn sd ed).totalModifications →
        (getMetrics rows gn sd ed).falsePositiveRate =
          ((getMetrics rows gn sd ed).totalFalsePositives : ℚ) /
            (((getMetrics rows gn sd ed).totalBlocks +
              (getMetrics rows gn sd ed).totalModifications : ℕ) : ℚ))) ∧
    (∀ g a, (g, a) ∈ (getMetrics rows gn sd ed).byGuardrail →
      (a.counters.invocations = 0 →
        a.blockRate = none ∧ a.modificationRate = none ∧
        a.passRate = none ∧ a.falsePositiveRate = none) ∧
      (0 < a.counters.invocations →
        a.blockRate = some ((a.counters.blocks : ℚ) / (a.counters.invocations : ℚ)) ∧
        a.modificationRate =
          some ((a.counters.modifications : ℚ) / (a.counters.invocations : ℚ)) ∧
        a.passRate = some ((a.counters.passes : ℚ) / (a.counters.invocations : ℚ)) ∧
        (a.counters.blocks + a.counters.modifications = 0 →
          a.falsePositiveRate = none) ∧
        (0 < a.counters.blocks + a.counters.modifications →
          a.falsePositiveRate = some ((a.counters.falsePositives : ℚ) /
            ((a.counters.blocks + a.counters.modifications : ℕ) : ℚ))))) := by
  have hfields := withGlobalRates_fields (accReport rows gn sd ed)
  have htI : (getMetrics rows gn sd ed).totalInvocations =
      (accReport rows gn sd ed).totalInvocations := hfields.1
  have htB : (getMetrics rows gn sd ed).totalBlocks =
      (accReport rows gn sd ed).totalBlocks := hfields.2.1
  have htM : (getMetrics rows gn sd ed).totalModifications =
      (accReport rows gn sd ed).totalModifications := hfields.2.2.1
  have htP : (getMetrics rows gn sd ed).totalPasses =
      (accReport rows gn sd ed).totalPasses := hfields.2.2.2.1
  have htF : (getMetrics rows gn sd ed).totalFalsePositives =
      (accReport rows gn sd ed).totalFalsePositives := hfields.2.2.2.2.1
  have hacc0 := accFold_rates (rows.filter (rowMatches gn sd ed)) emptyReport
  refine ⟨?_, ?_, ?_⟩
  · intro h0
    rw [htI] at h0
    have : (getMetrics rows gn sd ed).blockRate =
        (withGlobalRates (accReport rows gn sd ed)).blockRate := rfl
    rw [this]
    have hmr : (getMetrics rows gn sd ed).modificationRate =
        (withGlobalRates (accReport rows gn sd ed)).modificationRate := rfl
    have hpr : (getMetrics rows gn sd ed).passRate =
        (withGlobalRates (accReport rows gn sd ed)).passRate := rfl
    have hfr : (getMetrics rows gn sd ed).falsePositiveRate =
        (withGlobalRates (accReport rows gn sd ed)).falsePositiveRate := rfl
    rw [hmr, hpr, hfr, withGlobalRates, if_neg (by rw [h0]; exact lt_irrefl 0)]
    exact ⟨hacc0.1, hacc0.2.1, hacc0.2.2.1, hacc0.2.2.2⟩
  · intro h0
    rw [htI] at h0
    have hbr : (getMetrics rows gn sd ed).blockRate =
        (withGlobalRates (accReport rows gn sd ed)).blockRate := rfl
    have hmr : (getMetrics rows gn sd ed).modificationRate =
        (withGlobalRates (accReport rows gn sd ed)).modificationRate := rfl
    have hpr : (getMetrics rows gn sd ed).passRate =
        (withGlobalRates (accReport rows gn sd ed)).passRate := rfl
    have hfr : (getMetrics rows gn sd ed).falsePositiveRate =
        (withGlobalRates (accReport rows gn sd ed)).falsePositiveRate := rfl
    rw [hbr, hmr, hpr, hfr, htI, htB, htM, htP, htF]
    simp only [withGlobalRates, if_pos h0]
    by_cases hbm : 0 < (accReport rows gn sd ed).totalBlocks +
        (accReport rows gn sd ed).totalModifications
    · rw [if_pos hbm]
      exact ⟨rfl, rfl, rfl, fun h => absurd h (by omega), fun _ => rfl⟩
    · rw [if_neg hbm]
      exact ⟨rfl, rfl, rfl, fun _ => hacc0.2.2.2, fun h => absurd h hbm⟩
  · intro g a hga
    have hby : (getMetrics rows gn sd ed).byGuardrail =
        (accReport rows gn sd ed).byGuardrail.map
          (fun p => (p.1, computeGuardrailRates p.2)) := by
      show ((withGlobalRates (accReport rows gn sd ed)).byGuardrail.map
        (fun p => (p.1, computeGuardrailRates p.2))) = _
      rw [hfields.2.2.2.2.2]
    rw [hby] at hga
    obtain ⟨p, hp, hfp⟩ := List.mem_map.1 hga
    have hpnone : p.2.blockRate = none ∧ p.2.modificationRate = none ∧
        p.2.passRate = none ∧ p.2.falsePositiveRate = none := by
      refine accFold_byGuardrail_none (rows.filter (rowMatches gn sd ed)) emptyReport
        ?_ p hp
      intro q hq
      exact absurd hq (List.not_mem_nil q)
    have ha : a = computeGuardrailRates p.2 := by
      have := congrArg Prod.snd hfp
      simpa using this.symm
    have hspec := computeGuardrailRates_spec p.2 hpnone
    rw [ha, computeGuardrailRates_counters]
    exact hspec

/-- C8 counterexample: after a single pass-only day, the per-guardrail
bucket exists with `invocations = 1` and `blocks + modifications = 0`,
and its `false_positive_rate` key is absent (`none`), not `0.0` as the
claim states for every rate field. -/
theorem c8_counterexample_absent_rate :
    ((getMetrics [passOnlyRow] none none none).byGuardrail.find?
        (fun p => p.1 = "content_safety")).map (fun p => p.2.falsePositiveRate) =
      some none := by
  decide

/-- C8 witness: on a five-invocation day with two blocks and three
passes the global rates are the exact quotients `0.4` and `0.6`. -/
theorem c8_rate_fields_witness :
    (getMetrics [fiveRow] none none none).blockRate = 0.4 ∧
    (getMetrics [fiveRow] none none none).passRate = 0.6 := by
  have h := (c8_rate_fields [fiveRow] none none none).2.1 (by decide)
  have hI : (getMetrics [fiveRow] none none none).totalInvocations = 5 := by decide
  have hB : (getMetrics [fiveRow] none none none).totalBlocks = 2 := by decide
  have hP : (getMetrics [fiveRow] none none none).totalPasses = 3 := by decide
  constructor
  · rw [h.1, hI, hB]
    norm_num
  · rw [h.2.2.1, hI, hP]
    norm_num
end AINews
